import Mathlib

/-!
Verification development for the moltbot session event log.

The development shallowly embeds the two layers of the session event log:

* the durable event store (`src/infra/context-event-bus.ts`): per-partition
  append-only persistence with idempotency-key deduplication, monotone
  sequence numbers, bounded in-memory window and file compaction;
* the session delivery queue (`src/infra/system-events.ts`): input
  normalization, forwarding to the store, a bounded drain-once FIFO per
  session, and last-context-key tracking.

Platform primitives are embedded as executable Lean counterparts:
JavaScript string `trim`/`toLowerCase` become structural functions on
`String.data`, `Math.floor` on a (rational-valued) JS number becomes floor
division of numerator by denominator, `JSON.stringify`/`sha1`/`Date.now`/
path resolution become explicit parameters (`sz`, `fingerprint`, `now`,
`resolvePath`).  The file system is explicit state: a map from path to the
list of records currently in the file.  `Array.prototype.sort` (required
to be stable by the ECMAScript standard, and applied here to a total
preorder comparator) is embedded as stable insertion sort.
-/

namespace Moltbot

/-! ### JavaScript primitive helpers -/

/-- Embeds `String.prototype.toLowerCase` (simple case mapping). -/
def jsToLower (s : String) : String := ⟨s.data.map Char.toLower⟩

/-- Embeds `String.prototype.trim`: strip whitespace from both ends. -/
def jsTrim (s : String) : String :=
  ⟨((s.data.dropWhile Char.isWhitespace).reverse.dropWhile Char.isWhitespace).reverse⟩

/-- Embeds a JavaScript number: either a finite (rational) value or one of
the non-finite values `NaN`, `Infinity`, `-Infinity`. -/
inductive JsNum where
  | fin (q : ℚ)
  | nan
  | posInf
  | negInf
deriving DecidableEq

/-- Embeds `Math.floor` on a finite JS number. -/
def jsFloor (q : ℚ) : Int := Int.fdiv q.num q.den

/-- Embeds the idiom
`typeof x === "number" && Number.isFinite(x) ? Math.floor(x) : d`
for an optional numeric parameter `x`. -/
def jsFiniteFloor (x : Option JsNum) (d : Int) : Int :=
  match x with
  | some (JsNum.fin q) => jsFloor q
  | _ => d

/-- Embeds `xs.slice(Math.max(0, xs.length - n))`: the most recent `n`
elements of a list. -/
def takeLast {α : Type} (l : List α) (n : Nat) : List α := l.drop (l.length - n)

/-! ### JavaScript `Map` embedding

Insertion-ordered association list with the semantics of `Map.get`,
`Map.set` (update in place if the key is present, append otherwise) and
`Map.delete`. -/

/-- Embeds `Map.prototype.get`. -/
def mapGet {α : Type} : List (String × α) → String → Option α
  | [], _ => none
  | (k', v') :: rest, k => if k' = k then some v' else mapGet rest k

/-- Embeds `Map.prototype.set`. -/
def mapSet {α : Type} : List (String × α) → String → α → List (String × α)
  | [], k, v => [(k, v)]
  | (k', v') :: rest, k, v =>
    if k' = k then (k, v) :: rest else (k', v') :: mapSet rest k v

/-- Embeds `Map.prototype.delete`. -/
def mapDelete {α : Type} : List (String × α) → String → List (String × α)
  | [], _ => []
  | (k', v') :: rest, k => if k' = k then rest else (k', v') :: mapDelete rest k

/-! ### Durable event store (`context-event-bus.ts`) -/

/-- Embeds the scalar values allowed in event `metadata`
(`string | number | boolean | null`). -/
inductive MetaValue where
  | str (s : String)
  | num (q : ℚ)
  | bool (b : Bool)
  | null
deriving DecidableEq

/-- Embeds the `ContextEvent` record type. -/
structure ContextEvent where
  seq : Int
  ts : Int
  sessionKey : String
  source : String
  sourceId : String
  hash : String
  idempotencyKey : String
  text : String
  contextKey : Option String := none
  metadata : Option (List (String × MetaValue)) := none
deriving DecidableEq

/-- Embeds the `ContextEventAppendInput` record type. -/
structure ContextEventAppendInput where
  ts : Option Int := none
  sessionKey : String
  source : String
  sourceId : String
  hash : String
  idempotencyKey : String
  text : String
  contextKey : Option String := none
  metadata : Option (List (String × MetaValue)) := none

/-- Embeds `ContextEventBusState`: the in-memory state of one partition. -/
structure ContextEventBusState where
  events : List ContextEvent
  byKey : List (String × ContextEvent)
  nextSeq : Int
deriving DecidableEq

def MAX_EVENTS_IN_MEMORY : Nat := 8000
def MAX_EVENT_FILE_BYTES : Nat := 6000000
def KEEP_EVENT_LINES : Nat := 5000

/-- Embeds `parseContextEvent` at record granularity (JSON encoding and
decoding of one line is external and is the identity on well-typed
records): a record whose required string fields are blank after trimming
is rejected, a blank `contextKey` is dropped.  The numeric finiteness
checks on `seq`/`ts` hold by typing here. -/
def parseContextEvent (e : ContextEvent) : Option ContextEvent :=
  if jsTrim e.sessionKey = "" then none
  else if jsTrim e.source = "" then none
  else if jsTrim e.sourceId = "" then none
  else if jsTrim e.hash = "" then none
  else if jsTrim e.idempotencyKey = "" then none
  else if jsTrim e.text = "" then none
  else
    some { e with
      contextKey :=
        match e.contextKey with
        | some c => if jsTrim c = "" then none else some c
        | none => none }

/-- Embeds `pruneLoadedEvents`. -/
def pruneLoadedEvents (events : List ContextEvent) : List ContextEvent :=
  if events.length ≤ MAX_EVENTS_IN_MEMORY then events
  else takeLast events MAX_EVENTS_IN_MEMORY

/-- Embeds `rebuildByKey`. -/
def rebuildByKey (events : List ContextEvent) : List (String × ContextEvent) :=
  events.foldl (fun m e => mapSet m e.idempotencyKey e) []

/-- Embeds the process-level mutable state of the store module:
the file system (path to list of records in the backing file, a missing
path being an absent file) and the `busByPath` cache of loaded partition
states. -/
structure BusWorld where
  files : List (String × List ContextEvent)
  mem : List (String × ContextEventBusState)
deriving DecidableEq

/-- Embeds a process with no cached state and no backing files yet. -/
def emptyBusWorld : BusWorld := ⟨[], []⟩

/-- Embeds the sort `events.sort((a, b) => a.seq - b.seq)` (stable sort by
`seq`). -/
def sortBySeq (events : List ContextEvent) : List ContextEvent :=
  List.insertionSort (fun a b => a.seq ≤ b.seq) events

/-- Embeds `loadBusState`: return the cached state for the path if
present, otherwise read and parse the backing file (a missing file reads
as empty), sort by `seq`, keep the most recent bounded window, set
`nextSeq` to one past the last kept seq, and cache the state. -/
def loadBusState (w : BusWorld) (filePath : String) : ContextEventBusState × BusWorld :=
  match mapGet w.mem filePath with
  | some st => (st, w)
  | none =>
    let raw := (mapGet w.files filePath).getD []
    let events := pruneLoadedEvents (sortBySeq (raw.filterMap parseContextEvent))
    let nextSeq := ((events.getLast?).map (fun e => e.seq)).getD 0 + 1
    let st : ContextEventBusState := ⟨events, rebuildByKey events, nextSeq⟩
    (st, { w with mem := mapSet w.mem filePath st })

/-- Observable state of one partition: what `loadBusState` yields for its
path (the cached state when loaded, the parse of the backing file
otherwise). -/
def loadedState (w : BusWorld) (filePath : String) : ContextEventBusState :=
  (loadBusState w filePath).1

/-- Size in bytes of a backing file, given the serialized line size `sz`
of each record. -/
def fileSize (sz : ContextEvent → Nat) (records : List ContextEvent) : Nat :=
  (records.map sz).sum

/-- Embeds `pruneEventFileIfNeeded`: when the backing file exists and its
size exceeds `MAX_EVENT_FILE_BYTES`, rewrite it (write temp file, then
atomic rename) with only the most recent `KEEP_EVENT_LINES` in-memory
records and replace the in-memory list and dedup index with that tail. -/
def pruneEventFileIfNeeded (sz : ContextEvent → Nat) (w : BusWorld) (filePath : String)
    (st : ContextEventBusState) : ContextEventBusState × BusWorld :=
  match mapGet w.files filePath with
  | none => (st, w)
  | some records =>
    if fileSize sz records ≤ MAX_EVENT_FILE_BYTES then (st, w)
    else
      let kept := takeLast st.events KEEP_EVENT_LINES
      let st' : ContextEventBusState :=
        { st with events := kept, byKey := rebuildByKey kept }
      (st', { files := mapSet w.files filePath kept, mem := mapSet w.mem filePath st' })

/-- Embeds the result type of `appendContextEvent`. -/
structure AppendResult where
  appended : Bool
  event : ContextEvent
deriving DecidableEq

/-- Embeds the construction of the new `ContextEvent` in
`appendContextEvent`: the next sequence number is assigned, the timestamp
defaults to `Date.now()`. -/
def mkAppendEvent (now : Int) (state : ContextEventBusState)
    (input : ContextEventAppendInput) : ContextEvent :=
  { seq := state.nextSeq
    ts := input.ts.getD now
    sessionKey := input.sessionKey
    source := input.source
    sourceId := input.sourceId
    hash := input.hash
    idempotencyKey := input.idempotencyKey
    text := input.text
    contextKey := input.contextKey
    metadata := input.metadata }

/-- Embeds the in-memory mutation of `appendContextEvent` after the
dedup check: push the event, index it, bump `nextSeq`, and when the list
now exceeds the in-memory bound trim it to the bound and rebuild the
dedup index from the trimmed list. -/
def pushAppendEvent (state : ContextEventBusState) (event : ContextEvent) :
    ContextEventBusState :=
  let events := state.events ++ [event]
  let byKey := mapSet state.byKey event.idempotencyKey event
  if events.length > MAX_EVENTS_IN_MEMORY then
    let t := takeLast events MAX_EVENTS_IN_MEMORY
    { events := t, byKey := rebuildByKey t, nextSeq := state.nextSeq + 1 }
  else { events := events, byKey := byKey, nextSeq := state.nextSeq + 1 }

/-- Embeds the disk write of `appendContextEvent`: append one serialized
record line to the backing file (creating it if absent); the cache entry
for the path holds the mutated in-memory state. -/
def writeAppend (w : BusWorld) (filePath : String) (state : ContextEventBusState)
    (event : ContextEvent) : BusWorld :=
  { files := mapSet w.files filePath ((mapGet w.files filePath).getD [] ++ [event])
    mem := mapSet w.mem filePath state }

/-- Embeds `appendContextEvent`.  `sz` is the serialized byte size of one
record line, `resolvePath` the external path-resolution collaborator and
`now` the value of `Date.now()` during the call. -/
def appendContextEvent (sz : ContextEvent → Nat) (resolvePath : String → String) (now : Int)
    (w : BusWorld) (input : ContextEventAppendInput) : AppendResult × BusWorld :=
  let filePath := resolvePath input.sessionKey
  let lw := loadBusState w filePath
  let state := lw.1
  match mapGet state.byKey input.idempotencyKey with
  | some duplicate => (⟨false, duplicate⟩, lw.2)
  | none =>
    let event := mkAppendEvent now state input
    let state' := pushAppendEvent state event
    let w' := writeAppend lw.2 filePath state' event
    let pruned := pruneEventFileIfNeeded sz w' filePath state'
    (⟨true, event⟩, pruned.2)

/-- Embeds the parameter object of `queryContextEvents`. -/
structure QueryParams where
  sessionKey : Option String := none
  source : Option String := none
  afterSeq : Option JsNum := none
  limit : Option JsNum := none

/-- Embeds the filter of `queryContextEvents`: keep events of the session
with `seq` strictly above `afterSeq`, matching `source` case-insensitively
when a source filter is set. -/
def queryFilter (events : List ContextEvent) (sessionKey source : String)
    (afterSeq : Int) : List ContextEvent :=
  events.filter (fun e =>
    decide (e.sessionKey = sessionKey) && decide (afterSeq < e.seq) &&
      (decide (source = "") || decide (jsToLower e.source = source)))

/-- Embeds `queryContextEvents`. -/
def queryContextEvents (resolvePath : String → String) (w : BusWorld)
    (params : QueryParams) : List ContextEvent × BusWorld :=
  let sessionKey := jsTrim (params.sessionKey.getD "")
  if sessionKey = "" then ([], w)
  else
    let lw := loadBusState w (resolvePath sessionKey)
    let state := lw.1
    let w := lw.2
    let source := jsToLower (jsTrim (params.source.getD ""))
    let afterSeq := jsFiniteFloor params.afterSeq 0
    let limitRaw := jsFiniteFloor params.limit 200
    let limit : Int := max 1 (min 2000 limitRaw)
    let result := queryFilter state.events sessionKey source afterSeq
    if (result.length : Int) ≤ limit then (result, w)
    else (takeLast result limit.toNat, w)

/-- Embeds `getContextEventLatestSeq`. -/
def getContextEventLatestSeq (resolvePath : String → String) (w : BusWorld)
    (sessionKey : String) : Int × BusWorld :=
  let resolved := jsTrim sessionKey
  if resolved = "" then (0, w)
  else
    let lw := loadBusState w (resolvePath resolved)
    (((lw.1.events.getLast?).map (fun e => e.seq)).getD 0, lw.2)

/-! ### Session delivery queue (`system-events.ts`) -/

/-- Embeds the `SystemEvent` record type. -/
structure SystemEvent where
  text : String
  ts : Int
  seq : Option Int := none
  source : Option String := none
  sourceId : Option String := none
  hash : Option String := none
  idempotencyKey : Option String := none
deriving DecidableEq

def MAX_EVENTS : Nat := 20

/-- Embeds `SessionQueue`. -/
structure SessionQueue where
  queue : List SystemEvent
  lastContextKey : Option String
deriving DecidableEq

/-- Embeds the process-level state visible to the delivery queue: the
module-level `queues` map together with the store state underneath. -/
structure World where
  queues : List (String × SessionQueue)
  bus : BusWorld
deriving DecidableEq

/-- Embeds a fresh process: no queues, no cached store state, no files. -/
def emptyWorld : World := ⟨[], emptyBusWorld⟩

/-- Embeds the `SystemEventOptions` parameter object. -/
structure SystemEventOptions where
  sessionKey : String
  contextKey : Option String := none
  source : Option String := none
  sourceId : Option String := none
  hash : Option String := none
  idempotencyKey : Option String := none
  metadata : Option (List (String × MetaValue)) := none

/-- Embeds `requireSessionKey`: trim the key, throw when blank. -/
def requireSessionKey (key : Option String) : Except String String :=
  let trimmed := jsTrim (key.getD "")
  if trimmed = "" then Except.error "system events require a sessionKey"
  else Except.ok trimmed

/-- Embeds `normalizeContextKey`: blank or absent keys become `null`,
anything else is trimmed and lowercased. -/
def normalizeContextKey (key : Option String) : Option String :=
  match key with
  | none => none
  | some k =>
    if jsTrim k = "" then none else some (jsToLower (jsTrim k))

/-- Embeds `normalizeSource`: trim and lowercase, default `"system"`. -/
def normalizeSource (source : Option String) : String :=
  let trimmed := jsToLower (jsTrim (source.getD ""))
  if trimmed = "" then "system" else trimmed

/-- Embeds `normalizeSourceId`: the explicit value trimmed if non-blank,
else the normalized context key, else the session key. -/
def normalizeSourceId (sourceId : Option String) (contextKey : Option String)
    (sessionKey : String) : String :=
  let explicit := jsTrim (sourceId.getD "")
  if explicit ≠ "" then explicit
  else
    match normalizeContextKey contextKey with
    | some context => context
    | none => sessionKey

/-- Embeds `resolveEventHash`: the explicit value trimmed and lowercased
if non-blank, else the content fingerprint (`sha1` hex, embedded as the
parameter `fingerprint`) of the text. -/
def resolveEventHash (fingerprint : String → String) (text : String)
    (hash : Option String) : String :=
  let explicit := jsToLower (jsTrim (hash.getD ""))
  if explicit ≠ "" then explicit else fingerprint text

/-- Embeds `resolveIdempotencyKey`: the explicit value trimmed and
lowercased if non-blank, else `source:sourceId:hash`. -/
def resolveIdempotencyKey (source sourceId hash : String)
    (idempotencyKey : Option String) : String :=
  let explicit := jsToLower (jsTrim (idempotencyKey.getD ""))
  if explicit ≠ "" then explicit
  else source ++ ":" ++ sourceId ++ ":" ++ hash

/-- Embeds `toSystemEventFromBus`. -/
def toSystemEventFromBus (e : ContextEvent) : SystemEvent :=
  { text := e.text
    ts := e.ts
    seq := some e.seq
    source := some e.source
    sourceId := some e.sourceId
    hash := some e.hash
    idempotencyKey := some e.idempotencyKey }

/-- Embeds `isSystemEventContextChanged`. -/
def isSystemEventContextChanged (w : World) (sessionKey : String)
    (contextKey : Option String) : Except String Bool :=
  match requireSessionKey (some sessionKey) with
  | Except.error e => Except.error e
  | Except.ok key =>
    let existing := mapGet w.queues key
    let normalized := normalizeContextKey contextKey
    Except.ok (decide (normalized ≠ (existing.bind (fun q => q.lastContextKey))))

/-- Embeds the field resolution of `enqueueSystemEvent`: the input record
forwarded to `appendContextEvent` (source normalized with default
`"system"`, sourceId from explicit value, context key or session key,
hash from explicit value or content fingerprint, idempotency key from
explicit value or `source:sourceId:hash`). -/
def resolvedAppendInput (fp : String → String) (text : String)
    (options : SystemEventOptions) : ContextEventAppendInput :=
  let key := jsTrim options.sessionKey
  let source := normalizeSource options.source
  let sourceId := normalizeSourceId options.sourceId options.contextKey key
  let hash := resolveEventHash fp (jsTrim text) options.hash
  { sessionKey := key
    source := source
    sourceId := sourceId
    hash := hash
    idempotencyKey := resolveIdempotencyKey source sourceId hash options.idempotencyKey
    text := jsTrim text
    contextKey := normalizeContextKey options.contextKey
    metadata := options.metadata }

/-- Embeds the entry lookup `queues.get(key) ?? (() => ...)()`:
the session's current queue entry, a fresh empty entry when absent. -/
def queueEntry (w : World) (key : String) : SessionQueue :=
  (mapGet w.queues key).getD ⟨[], none⟩

/-- Embeds the map effect of that lookup: a fresh empty entry is inserted
when the session had none. -/
def ensuredQueues (w : World) (key : String) : List (String × SessionQueue) :=
  match mapGet w.queues key with
  | some _ => w.queues
  | none => mapSet w.queues key ⟨[], none⟩

/-- Embeds the bounded FIFO push: append, then `shift()` once when the
queue exceeds `MAX_EVENTS`. -/
def pushBounded (q : List SystemEvent) (e : SystemEvent) : List SystemEvent :=
  let q2 := q ++ [e]
  if q2.length > MAX_EVENTS then q2.drop 1 else q2

/-- Embeds `enqueueSystemEvent`.  Throws on a blank session key;
otherwise ensures a queue entry exists, silently drops blank text,
normalizes the metadata fields, forwards to the store, always records the
normalized context key, and pushes onto the bounded FIFO only when the
store reports the event as new. -/
def enqueueSystemEvent (sz : ContextEvent → Nat) (resolvePath : String → String)
    (fingerprint : String → String) (now : Int) (w : World) (text : String)
    (options : SystemEventOptions) : Except String World :=
  match requireSessionKey (some options.sessionKey) with
  | Except.error e => Except.error e
  | Except.ok key =>
    let queues := ensuredQueues w key
    if jsTrim text = "" then Except.ok { w with queues := queues }
    else
      let ar := appendContextEvent sz resolvePath now w.bus
        (resolvedAppendInput fingerprint text options)
      let entry' : SessionQueue :=
        { queueEntry w key with lastContextKey := normalizeContextKey options.contextKey }
      if !ar.1.appended then
        Except.ok { queues := mapSet queues key entry', bus := ar.2 }
      else
        Except.ok
          { queues := mapSet queues key
              ({ entry' with
                  queue := pushBounded entry'.queue (toSystemEventFromBus ar.1.event) }),
            bus := ar.2 }

/-- Embeds `drainSystemEventEntries`: return the queued entries in FIFO
order and clear the session's queue and context tracking. -/
def drainSystemEventEntries (w : World) (sessionKey : String) :
    Except String (List SystemEvent × World) :=
  match requireSessionKey (some sessionKey) with
  | Except.error e => Except.error e
  | Except.ok key =>
    match mapGet w.queues key with
    | none => Except.ok ([], w)
    | some entry =>
      if entry.queue.length = 0 then Except.ok ([], w)
      else Except.ok (entry.queue, { w with queues := mapDelete w.queues key })

/-- Embeds `hasSystemEvents`. -/
def hasSystemEvents (w : World) (sessionKey : String) : Except String Bool :=
  match requireSessionKey (some sessionKey) with
  | Except.error e => Except.error e
  | Except.ok key =>
    Except.ok (decide (0 < ((mapGet w.queues key).map (fun q => q.queue.length)).getD 0))

/-! ### Lemmas about the JS `Map` embedding -/

theorem mapGet_mapSet_self {α : Type} (m : List (String × α)) (k : String) (v : α) :
    mapGet (mapSet m k v) k = some v := by
  induction m with
  | nil => simp [mapGet, mapSet]
  | cons hd tl ih =>
    obtain ⟨k', v'⟩ := hd
    by_cases h : k' = k <;> simp [mapGet, mapSet, h, ih]

theorem mapGet_mapSet_ne {α : Type} (m : List (String × α)) {k k' : String} (v : α)
    (h : k' ≠ k) : mapGet (mapSet m k v) k' = mapGet m k' := by
  have hk : k ≠ k' := Ne.symm h
  induction m with
  | nil => simp [mapGet, mapSet, hk]
  | cons hd tl ih =>
    obtain ⟨k₀, v₀⟩ := hd
    by_cases h0 : k₀ = k
    · subst h0
      simp [mapGet, mapSet, hk]
    · by_cases h1 : k₀ = k' <;> simp [mapGet, mapSet, h0, h1, hk, h, ih]

theorem mapGet_mapDelete_ne {α : Type} (m : List (String × α)) {k k' : String}
    (h : k' ≠ k) : mapGet (mapDelete m k) k' = mapGet m k' := by
  have hk : k ≠ k' := Ne.symm h
  induction m with
  | nil => simp [mapDelete]
  | cons hd tl ih =>
    obtain ⟨k₀, v₀⟩ := hd
    by_cases h0 : k₀ = k
    · subst h0
      simp [mapGet, mapDelete, hk]
    · by_cases h1 : k₀ = k' <;> simp [mapGet, mapDelete, h0, h1, hk, h, ih]

theorem mapGet_eq_none_of_not_mem {α : Type} {m : List (String × α)} {k : String}
    (h : k ∉ m.map Prod.fst) : mapGet m k = none := by
  induction m with
  | nil => rfl
  | cons hd tl ih =>
    obtain ⟨k₀, v₀⟩ := hd
    simp only [List.map_cons, List.mem_cons, not_or] at h
    have hne : k₀ ≠ k := Ne.symm h.1
    simp [mapGet, hne, ih h.2]

theorem mapGet_mapDelete_self {α : Type} (m : List (String × α)) (k : String)
    (h : (m.map Prod.fst).Nodup) : mapGet (mapDelete m k) k = none := by
  induction m with
  | nil => simp [mapGet, mapDelete]
  | cons hd tl ih =>
    obtain ⟨k₀, v₀⟩ := hd
    simp only [List.map_cons, List.nodup_cons] at h
    by_cases h0 : k₀ = k
    · subst h0
      simp only [mapDelete, if_pos rfl]
      exact mapGet_eq_none_of_not_mem h.1
    · simp [mapGet, mapDelete, h0, ih h.2]

/-! ### Lemmas about `takeLast` -/

theorem takeLast_eq_self {α : Type} (l : List α) {n : Nat} (h : l.length ≤ n) :
    takeLast l n = l := by
  simp [takeLast, Nat.sub_eq_zero_of_le h]

theorem takeLast_suffix {α : Type} (l : List α) (n : Nat) :
    (takeLast l n).IsSuffix l :=
  List.drop_suffix _ _

theorem takeLast_length_le {α : Type} (l : List α) (n : Nat) :
    (takeLast l n).length ≤ n := by
  simp only [takeLast, List.length_drop]
  omega

theorem takeLast_getLast? {α : Type} (l : List α) {n : Nat} (hn : 0 < n) :
    (takeLast l n).getLast? = l.getLast? := by
  rcases Nat.eq_zero_or_pos l.length with hl | hl
  · rw [List.length_eq_zero] at hl
    subst hl
    simp [takeLast]
  · rw [List.getLast?_eq_getElem?, List.getLast?_eq_getElem?, takeLast,
      List.length_drop, List.getElem?_drop]
    congr 1
    omega

theorem takeLast_ne_nil {α : Type} (l : List α) {n : Nat} (hn : 0 < n)
    (hl : l ≠ []) : takeLast l n ≠ [] := by
  simp only [takeLast, ne_eq, List.drop_eq_nil_iff]
  have := List.length_pos.2 hl
  omega

/-! ### Lemmas about `loadBusState` -/

theorem loadedState_of_mem {w : BusWorld} {p : String} {st : ContextEventBusState}
    (h : mapGet w.mem p = some st) : loadedState w p = st := by
  simp [loadedState, loadBusState, h]

theorem loadBusState_cached {w : BusWorld} {p : String} {st : ContextEventBusState}
    (h : mapGet w.mem p = some st) : loadBusState w p = (st, w) := by
  simp [loadBusState, h]

theorem loadBusState_uncached {w : BusWorld} {p : String}
    (h : mapGet w.mem p = none) :
    loadBusState w p =
      (loadedState w p, { w with mem := mapSet w.mem p (loadedState w p) }) := by
  simp [loadedState, loadBusState, h]

theorem loadBusState_files (w : BusWorld) (p : String) :
    (loadBusState w p).2.files = w.files := by
  cases h : mapGet w.mem p with
  | some st => rw [loadBusState_cached h]
  | none => rw [loadBusState_uncached h]

theorem loadBusState_caches (w : BusWorld) (p : String) :
    mapGet (loadBusState w p).2.mem p = some (loadedState w p) := by
  cases h : mapGet w.mem p with
  | some st =>
    rw [loadBusState_cached h, loadedState_of_mem h]
    exact h
  | none =>
    rw [loadBusState_uncached h]
    exact mapGet_mapSet_self _ _ _

theorem loadedState_stable (w : BusWorld) (p q : String) :
    loadedState (loadBusState w p).2 q = loadedState w q := by
  cases h : mapGet w.mem p with
  | some st => rw [loadBusState_cached h]
  | none =>
    rw [loadBusState_uncached h]
    by_cases hq : q = p
    · subst hq
      rw [loadedState_of_mem (mapGet_mapSet_self _ _ _)]
    · unfold loadedState loadBusState
      simp only [mapGet_mapSet_ne _ _ hq]
      cases h2 : mapGet w.mem q <;> simp [h2]

/-! ### Lemmas about appending -/

theorem pushAppendEvent_nextSeq (st : ContextEventBusState) (e : ContextEvent) :
    (pushAppendEvent st e).nextSeq = st.nextSeq + 1 := by
  unfold pushAppendEvent
  by_cases h : (st.events ++ [e]).length > MAX_EVENTS_IN_MEMORY
  · simp only [if_pos h]
  · simp only [if_neg h]

theorem pushAppendEvent_getLast? (st : ContextEventBusState) (e : ContextEvent) :
    (pushAppendEvent st e).events.getLast? = some e := by
  unfold pushAppendEvent
  by_cases h : (st.events ++ [e]).length > MAX_EVENTS_IN_MEMORY
  · simp only [if_pos h]
    rw [takeLast_getLast? _ (by norm_num [MAX_EVENTS_IN_MEMORY])]
    simp
  · simp only [if_neg h]
    simp

theorem pushAppendEvent_suffix (st : ContextEventBusState) (e : ContextEvent) :
    (pushAppendEvent st e).events.IsSuffix (st.events ++ [e]) := by
  unfold pushAppendEvent
  by_cases h : (st.events ++ [e]).length > MAX_EVENTS_IN_MEMORY
  · simp only [if_pos h]
    exact takeLast_suffix _ _
  · simp only [if_neg h]
    exact List.suffix_rfl

theorem writeAppend_mem (w : BusWorld) (p : String) (st : ContextEventBusState)
    (e : ContextEvent) : mapGet (writeAppend w p st e).mem p = some st :=
  mapGet_mapSet_self _ _ _

theorem writeAppend_files (w : BusWorld) (p : String) (st : ContextEventBusState)
    (e : ContextEvent) :
    mapGet (writeAppend w p st e).files p = some ((mapGet w.files p).getD [] ++ [e]) :=
  mapGet_mapSet_self _ _ _

theorem pruneEventFileIfNeeded_nextSeq (sz : ContextEvent → Nat) (w : BusWorld)
    (p : String) (st : ContextEventBusState) :
    (pruneEventFileIfNeeded sz w p st).1.nextSeq = st.nextSeq := by
  unfold pruneEventFileIfNeeded
  cases hf : mapGet w.files p with
  | none => rfl
  | some records =>
    by_cases hs : fileSize sz records ≤ MAX_EVENT_FILE_BYTES
    · simp only [if_pos hs]
    · simp only [if_neg hs]

theorem pruneEventFileIfNeeded_getLast? (sz : ContextEvent → Nat) (w : BusWorld)
    (p : String) (st : ContextEventBusState) :
    (pruneEventFileIfNeeded sz w p st).1.events.getLast? = st.events.getLast? := by
  unfold pruneEventFileIfNeeded
  cases hf : mapGet w.files p with
  | none => rfl
  | some records =>
    by_cases hs : fileSize sz records ≤ MAX_EVENT_FILE_BYTES
    · simp only [if_pos hs]
    · simp only [if_neg hs]
      exact takeLast_getLast? _ (by norm_num [KEEP_EVENT_LINES])

theorem pruneEventFileIfNeeded_events_suffix (sz : ContextEvent → Nat) (w : BusWorld)
    (p : String) (st : ContextEventBusState) :
    (pruneEventFileIfNeeded sz w p st).1.events.IsSuffix st.events := by
  unfold pruneEventFileIfNeeded
  cases hf : mapGet w.files p with
  | none => exact List.suffix_rfl
  | some records =>
    by_cases hs : fileSize sz records ≤ MAX_EVENT_FILE_BYTES
    · simp only [if_pos hs]
      exact List.suffix_rfl
    · simp only [if_neg hs]
      exact takeLast_suffix _ _

theorem pruneEventFileIfNeeded_mem (sz : ContextEvent → Nat) {w : BusWorld}
    {p : String} {st : ContextEventBusState} (h : mapGet w.mem p = some st) :
    mapGet (pruneEventFileIfNeeded sz w p st).2.mem p =
      some (pruneEventFileIfNeeded sz w p st).1 := by
  unfold pruneEventFileIfNeeded
  cases hf : mapGet w.files p with
  | none => exact h
  | some records =>
    by_cases hs : fileSize sz records ≤ MAX_EVENT_FILE_BYTES
    · simp only [if_pos hs]
      exact h
    · simp only [if_neg hs]
      exact mapGet_mapSet_self _ _ _

theorem appendContextEvent_dup {sz : ContextEvent → Nat} {resolvePath : String → String}
    {now : Int} {w : BusWorld} {input : ContextEventAppendInput} {e : ContextEvent}
    (h : mapGet (loadedState w (resolvePath input.sessionKey)).byKey
        input.idempotencyKey = some e) :
    appendContextEvent sz resolvePath now w input =
      (⟨false, e⟩, (loadBusState w (resolvePath input.sessionKey)).2) := by
  unfold loadedState at h
  simp only [appendContextEvent]
  rw [h]

theorem appendContextEvent_fresh {sz : ContextEvent → Nat} {resolvePath : String → String}
    {now : Int} {w : BusWorld} {input : ContextEventAppendInput}
    (h : mapGet (loadedState w (resolvePath input.sessionKey)).byKey
        input.idempotencyKey = none) :
    appendContextEvent sz resolvePath now w input =
      (let p := resolvePath input.sessionKey
       let st := loadedState w p
       let event := mkAppendEvent now st input
       let st' := pushAppendEvent st event
       (⟨true, event⟩,
        (pruneEventFileIfNeeded sz (writeAppend (loadBusState w p).2 p st' event) p st').2)) := by
  unfold loadedState at h ⊢
  simp only [appendContextEvent]
  rw [h]

theorem appendContextEvent_appended_iff (sz : ContextEvent → Nat)
    (resolvePath : String → String) (now : Int) (w : BusWorld)
    (input : ContextEventAppendInput) :
    (appendContextEvent sz resolvePath now w input).1.appended = true ↔
      mapGet (loadedState w (resolvePath input.sessionKey)).byKey
        input.idempotencyKey = none := by
  cases h : mapGet (loadedState w (resolvePath input.sessionKey)).byKey
      input.idempotencyKey with
  | some e =>
    rw [appendContextEvent_dup h]
    simp
  | none =>
    rw [appendContextEvent_fresh h]
    simp

theorem appendContextEvent_fresh_event {sz : ContextEvent → Nat}
    {resolvePath : String → String} {now : Int} {w : BusWorld}
    {input : ContextEventAppendInput}
    (h : mapGet (loadedState w (resolvePath input.sessionKey)).byKey
        input.idempotencyKey = none) :
    (appendContextEvent sz resolvePath now w input).1 =
      ⟨true, mkAppendEvent now (loadedState w (resolvePath input.sessionKey)) input⟩ := by
  rw [appendContextEvent_fresh h]

theorem loadedState_appendContextEvent_fresh {sz : ContextEvent → Nat}
    {resolvePath : String → String} {now : Int} {w : BusWorld}
    {input : ContextEventAppendInput}
    (h : mapGet (loadedState w (resolvePath input.sessionKey)).byKey
        input.idempotencyKey = none) :
    loadedState (appendContextEvent sz resolvePath now w input).2
        (resolvePath input.sessionKey) =
      (let p := resolvePath input.sessionKey
       let st := loadedState w p
       let event := mkAppendEvent now st input
       let st' := pushAppendEvent st event
       (pruneEventFileIfNeeded sz (writeAppend (loadBusState w p).2 p st' event) p st').1) := by
  rw [appendContextEvent_fresh h]
  exact loadedState_of_mem (pruneEventFileIfNeeded_mem sz (writeAppend_mem _ _ _ _))

/-- After a non-duplicate append, the partition gets `nextSeq` one past
the appended seq, and the appended event is the last in-memory event. -/
theorem loadedState_after_fresh_append {sz : ContextEvent → Nat}
    {resolvePath : String → String} {now : Int} {w : BusWorld}
    {input : ContextEventAppendInput}
    (h : mapGet (loadedState w (resolvePath input.sessionKey)).byKey
        input.idempotencyKey = none) :
    (loadedState (appendContextEvent sz resolvePath now w input).2
        (resolvePath input.sessionKey)).nextSeq =
        (loadedState w (resolvePath input.sessionKey)).nextSeq + 1 ∧
      (loadedState (appendContextEvent sz resolvePath now w input).2
        (resolvePath input.sessionKey)).events.getLast? =
        some (mkAppendEvent now (loadedState w (resolvePath input.sessionKey)) input) := by
  rw [loadedState_appendContextEvent_fresh h]
  constructor
  · rw [pruneEventFileIfNeeded_nextSeq, pushAppendEvent_nextSeq]
  · rw [pruneEventFileIfNeeded_getLast?, pushAppendEvent_getLast?]

/-! ### Claim C1 -/

/-- C1: for every partition and every Append input whose `idempotencyKey`
is already present in the partition's dedup index, Append returns
`{appended: false, event: e}` where `e` is the originally stored event
for that key (unchanged, with its original seq), and the call leaves the
partition's event list (hence its length), dedup index, next sequence
number, and backing file contents unchanged. -/
theorem append_duplicate_is_noop (sz : ContextEvent → Nat)
    (resolvePath : String → String) (now : Int) (w : BusWorld)
    (input : ContextEventAppendInput) (e : ContextEvent)
    (h : mapGet (loadedState w (resolvePath input.sessionKey)).byKey
        input.idempotencyKey = some e) :
    (appendContextEvent sz resolvePath now w input).1 =
        ⟨false, e⟩ ∧
      (appendContextEvent sz resolvePath now w input).2.files = w.files ∧
      ∀ q, loadedState (appendContextEvent sz resolvePath now w input).2 q =
        loadedState w q := by
  rw [appendContextEvent_dup h]
  exact ⟨rfl, loadBusState_files w _, fun q => loadedState_stable w _ q⟩

def witEvent : ContextEvent :=
  { seq := 1, ts := 0, sessionKey := "s", source := "src", sourceId := "id",
    hash := "h", idempotencyKey := "k", text := "t" }

def witWorld : BusWorld :=
  { files := [("f", [witEvent])], mem := [("f", ⟨[witEvent], [("k", witEvent)], 2⟩)] }

def witInput : ContextEventAppendInput :=
  { sessionKey := "s", source := "src2", sourceId := "id2", hash := "h2",
    idempotencyKey := "k", text := "t2" }

/-- Witness for C1 at a concrete one-event partition. -/
theorem append_duplicate_is_noop_witness :
    mapGet (loadedState witWorld ((fun _ => "f") witInput.sessionKey)).byKey
        witInput.idempotencyKey = some witEvent ∧
      ((appendContextEvent (fun _ => 1) (fun _ => "f") 5 witWorld witInput).1 =
          ⟨false, witEvent⟩ ∧
        (appendContextEvent (fun _ => 1) (fun _ => "f") 5 witWorld witInput).2.files =
          witWorld.files ∧
        ∀ q, loadedState (appendContextEvent (fun _ => 1) (fun _ => "f") 5 witWorld
          witInput).2 q = loadedState witWorld q) :=
  ⟨by decide, append_duplicate_is_noop (fun _ => 1) (fun _ => "f") 5 witWorld witInput
    witEvent (by decide)⟩

/-! ### Claim C2 -/

/-- Embeds a sequence of `appendContextEvent` calls, each with its own
`Date.now()` value. -/
def appendRun (sz : ContextEvent → Nat) (resolvePath : String → String) :
    BusWorld → List (Int × ContextEventAppendInput) → List AppendResult × BusWorld
  | w, [] => ([], w)
  | w, (now, input) :: rest =>
    let r := appendContextEvent sz resolvePath now w input
    let rr := appendRun sz resolvePath r.2 rest
    (r.1 :: rr.1, rr.2)

/-- Embeds a process restart: the in-memory cache is gone, the backing
files survive. -/
def restartBus (w : BusWorld) : BusWorld := ⟨w.files, []⟩

/-- Consecutive integers starting at `n`. -/
def seqsFrom (n : Int) : Nat → List Int
  | 0 => []
  | k + 1 => n :: seqsFrom (n + 1) k

theorem seqsFrom_chain (n : Int) (k : Nat) :
    List.Chain' (fun a b => b = a + 1) (seqsFrom n k) := by
  induction k generalizing n with
  | zero => exact List.chain'_nil
  | succ k ih =>
    cases k with
    | zero => simp [seqsFrom]
    | succ k2 =>
      refine List.Chain'.cons rfl (ih (n + 1))

theorem append_appended_seq {sz : ContextEvent → Nat} {rp : String → String}
    {now : Int} {w : BusWorld} {input : ContextEventAppendInput}
    (h : (appendContextEvent sz rp now w input).1.appended = true) :
    (appendContextEvent sz rp now w input).1.event.seq =
        (loadedState w (rp input.sessionKey)).nextSeq ∧
      (loadedState (appendContextEvent sz rp now w input).2 (rp input.sessionKey)).nextSeq =
        (loadedState w (rp input.sessionKey)).nextSeq + 1 := by
  have hf := (appendContextEvent_appended_iff sz rp now w input).1 h
  refine ⟨?_, (loadedState_after_fresh_append hf).1⟩
  rw [appendContextEvent_fresh_event hf]
  simp [mkAppendEvent]

theorem appendRun_seqs (sz : ContextEvent → Nat) (rp : String → String) (p : String) :
    ∀ (calls : List (Int × ContextEventAppendInput)) (w : BusWorld),
      (∀ c ∈ calls, rp c.2.sessionKey = p) →
      (∀ r ∈ (appendRun sz rp w calls).1, r.appended = true) →
      ((appendRun sz rp w calls).1.map (fun r => r.event.seq)) =
        seqsFrom (loadedState w p).nextSeq calls.length := by
  intro calls
  induction calls with
  | nil => intro w _ _; rfl
  | cons c rest ih =>
    intro w hp happ
    obtain ⟨now, input⟩ := c
    have hpath : rp input.sessionKey = p := hp _ (List.mem_cons_self _ _)
    have h1 : (appendContextEvent sz rp now w input).1.appended = true := by
      refine happ _ ?_
      show _ ∈ (appendRun sz rp w ((now, input) :: rest)).1
      simp only [appendRun]
      exact List.mem_cons_self _ _
    have hseq := append_appended_seq h1
    rw [hpath] at hseq
    have hrest : ((appendRun sz rp (appendContextEvent sz rp now w input).2 rest).1.map
        (fun r => r.event.seq)) =
        seqsFrom (loadedState (appendContextEvent sz rp now w input).2 p).nextSeq
          rest.length := by
      refine ih _ (fun c hc => hp c (List.mem_cons_of_mem _ hc)) ?_
      intro r hr
      refine happ r ?_
      show _ ∈ (appendRun sz rp w ((now, input) :: rest)).1
      simp only [appendRun]
      exact List.mem_cons_of_mem _ hr
    show (appendContextEvent sz rp now w input).1.event.seq ::
        ((appendRun sz rp (appendContextEvent sz rp now w input).2 rest).1.map
          (fun r => r.event.seq)) =
      seqsFrom (loadedState w p).nextSeq (rest.length + 1)
    rw [hrest, hseq.2, hseq.1, seqsFrom]

instance : IsTotal ContextEvent (fun a b => a.seq ≤ b.seq) :=
  ⟨fun a b => Int.le_total a.seq b.seq⟩

instance : IsTrans ContextEvent (fun a b => a.seq ≤ b.seq) :=
  ⟨fun _ _ _ h h2 => le_trans h h2⟩

theorem pruneLoadedEvents_getLast? (l : List ContextEvent) :
    (pruneLoadedEvents l).getLast? = l.getLast? := by
  unfold pruneLoadedEvents
  by_cases h : l.length ≤ MAX_EVENTS_IN_MEMORY
  · simp only [if_pos h]
  · simp only [if_neg h]
    exact takeLast_getLast? _ (by norm_num [MAX_EVENTS_IN_MEMORY])

theorem sorted_getLast?_max {α : Type} {r : α → α → Prop} :
    ∀ {l : List α}, List.Sorted r l → ∀ {m : α}, l.getLast? = some m →
      ∀ x ∈ l, x = m ∨ r x m := by
  intro l
  induction l with
  | nil => intro _ m hm; simp at hm
  | cons a t ih =>
    intro hs m hm x hx
    cases t with
    | nil =>
      simp at hm hx
      subst hm; subst hx
      exact Or.inl rfl
    | cons b t2 =>
      rw [List.getLast?_cons_cons] at hm
      rcases List.mem_cons.1 hx with hxa | hxt
      · subst hxa
        have hmem : m ∈ b :: t2 := List.mem_of_mem_getLast? (by rw [hm]; rfl)
        exact Or.inr ((List.sorted_cons.1 hs).1 m hmem)
      · exact ih (List.sorted_cons.1 hs).2 hm x hxt

/-- C2: the `seq` values of a run of successful appends to one partition
are consecutive (hence strictly increasing with no gaps), and after a
process restart, reloading a partition whose backing file has parsed
records sets the next sequence number to one past their maximum seq. -/
theorem append_seq_monotone_and_reload_resumes (sz : ContextEvent → Nat)
    (rp : String → String) (p : String)
    (calls : List (Int × ContextEventAppendInput)) (w : BusWorld)
    (hp : ∀ c ∈ calls, rp c.2.sessionKey = p)
    (happ : ∀ r ∈ (appendRun sz rp w calls).1, r.appended = true) :
    List.Chain' (fun a b => b = a + 1)
        ((appendRun sz rp w calls).1.map (fun r => r.event.seq)) ∧
      ∀ (w2 : BusWorld) (q : String),
        (((mapGet w2.files q).getD []).filterMap parseContextEvent) ≠ [] →
        ∃ m, m ∈ (((mapGet w2.files q).getD []).filterMap parseContextEvent) ∧
          (∀ e ∈ (((mapGet w2.files q).getD []).filterMap parseContextEvent),
            e.seq ≤ m.seq) ∧
          (loadedState (restartBus w2) q).nextSeq = m.seq + 1 := by
  constructor
  · rw [appendRun_seqs sz rp p calls w hp happ]
    exact seqsFrom_chain _ _
  · intro w2 q hne
    set parsed := ((mapGet w2.files q).getD []).filterMap parseContextEvent with hparsed
    have hperm : List.Perm (sortBySeq parsed) parsed := List.perm_insertionSort _ _
    have hsorted : List.Sorted (fun a b : ContextEvent => a.seq ≤ b.seq)
        (sortBySeq parsed) := List.sorted_insertionSort _ _
    have hsne : sortBySeq parsed ≠ [] := by
      intro hnil
      have hlen : parsed.length = 0 := by
        rw [← hperm.length_eq, hnil]
        rfl
      exact hne (List.length_eq_zero.1 hlen)
    have hstate : loadedState (restartBus w2) q =
        ⟨pruneLoadedEvents (sortBySeq parsed),
         rebuildByKey (pruneLoadedEvents (sortBySeq parsed)),
         (((pruneLoadedEvents (sortBySeq parsed)).getLast?).map (fun e => e.seq)).getD 0
           + 1⟩ := rfl
    have hlast : (sortBySeq parsed).getLast? = some ((sortBySeq parsed).getLast hsne) :=
      List.getLast?_eq_getLast _ hsne
    refine ⟨(sortBySeq parsed).getLast hsne, ?_, ?_, ?_⟩
    · exact hperm.mem_iff.1 (List.getLast_mem hsne)
    · intro e he
      rcases sorted_getLast?_max hsorted hlast e (hperm.mem_iff.2 he) with heq | hle
      · rw [heq]
      · exact hle
    · rw [hstate]
      show (((pruneLoadedEvents (sortBySeq parsed)).getLast?).map
        (fun e => e.seq)).getD 0 + 1 = _
      rw [pruneLoadedEvents_getLast?, hlast]
      rfl

def witInputB : ContextEventAppendInput :=
  { sessionKey := "s", source := "src", sourceId := "id2", hash := "h2",
    idempotencyKey := "k2", text := "t2" }

/-- Witness for C2: two fresh appends from an empty store. -/
theorem append_seq_monotone_and_reload_resumes_witness :
    (∀ c ∈ [((0 : Int), witInput), ((1 : Int), witInputB)],
        (fun _ => "f") c.2.sessionKey = "f") ∧
      (∀ r ∈ (appendRun (fun _ => 1) (fun _ => "f") emptyBusWorld
          [((0 : Int), witInput), ((1 : Int), witInputB)]).1, r.appended = true) ∧
      (List.Chain' (fun a b => b = a + 1)
          ((appendRun (fun _ => 1) (fun _ => "f") emptyBusWorld
            [((0 : Int), witInput), ((1 : Int), witInputB)]).1.map
              (fun r => r.event.seq)) ∧
        ∀ (w2 : BusWorld) (q : String),
          (((mapGet w2.files q).getD []).filterMap parseContextEvent) ≠ [] →
          ∃ m, m ∈ (((mapGet w2.files q).getD []).filterMap parseContextEvent) ∧
            (∀ e ∈ (((mapGet w2.files q).getD []).filterMap parseContextEvent),
              e.seq ≤ m.seq) ∧
            (loadedState (restartBus w2) q).nextSeq = m.seq + 1) :=
  ⟨by decide, by decide,
    append_seq_monotone_and_reload_resumes (fun _ => 1) (fun _ => "f") "f"
      [((0 : Int), witInput), ((1 : Int), witInputB)] emptyBusWorld
      (by decide) (by decide)⟩

/-! ### Lemmas about the delivery queue -/

theorem enqueueSystemEvent_blank_key {sz : ContextEvent → Nat} {rp fp : String → String}
    {now : Int} {w : World} {text : String} {options : SystemEventOptions}
    (h : jsTrim options.sessionKey = "") :
    enqueueSystemEvent sz rp fp now w text options =
      Except.error "system events require a sessionKey" := by
  unfold enqueueSystemEvent requireSessionKey
  simp [h]

theorem enqueueSystemEvent_blank_text {sz : ContextEvent → Nat} {rp fp : String → String}
    {now : Int} {w : World} {text : String} {options : SystemEventOptions}
    (hk : jsTrim options.sessionKey ≠ "") (ht : jsTrim text = "") :
    enqueueSystemEvent sz rp fp now w text options =
      Except.ok { w with queues := ensuredQueues w (jsTrim options.sessionKey) } := by
  unfold enqueueSystemEvent requireSessionKey
  simp [hk, ht]

theorem enqueueSystemEvent_text {sz : ContextEvent → Nat} {rp fp : String → String}
    {now : Int} {w : World} {text : String} {options : SystemEventOptions}
    (hk : jsTrim options.sessionKey ≠ "") (ht : jsTrim text ≠ "") :
    enqueueSystemEvent sz rp fp now w text options =
      (let key := jsTrim options.sessionKey
       let ar := appendContextEvent sz rp now w.bus (resolvedAppendInput fp text options)
       let entry' : SessionQueue :=
         { queueEntry w key with lastContextKey := normalizeContextKey options.contextKey }
       if !ar.1.appended then
         Except.ok { queues := mapSet (ensuredQueues w key) key entry', bus := ar.2 }
       else
         Except.ok
           { queues := mapSet (ensuredQueues w key) key
               ({ entry' with
                   queue := pushBounded entry'.queue (toSystemEventFromBus ar.1.event) }),
             bus := ar.2 }) := by
  unfold enqueueSystemEvent requireSessionKey
  simp [hk, ht]

theorem enqueueSystemEvent_ok {sz : ContextEvent → Nat} {rp fp : String → String}
    {now : Int} {w : World} {text : String} {options : SystemEventOptions}
    (hk : jsTrim options.sessionKey ≠ "") :
    ∃ w', enqueueSystemEvent sz rp fp now w text options = Except.ok w' := by
  by_cases ht : jsTrim text = ""
  · exact ⟨_, enqueueSystemEvent_blank_text hk ht⟩
  · rw [enqueueSystemEvent_text hk ht]
    by_cases ha : (appendContextEvent sz rp now w.bus
        (resolvedAppendInput fp text options)).1.appended
    · simp only [ha, Bool.not_true, Bool.false_eq_true, if_false]
      exact ⟨_, rfl⟩
    · rw [Bool.not_eq_true] at ha
      simp only [ha, Bool.not_false, if_true]
      exact ⟨_, rfl⟩

/-! ### Claim C9 -/

theorem ensuredQueues_obs (w : World) (key k : String) :
    ((mapGet (ensuredQueues w key) k).map (fun q => q.queue)).getD [] =
        ((mapGet w.queues k).map (fun q => q.queue)).getD [] ∧
      (mapGet (ensuredQueues w key) k).bind (fun q => q.lastContextKey) =
        (mapGet w.queues k).bind (fun q => q.lastContextKey) := by
  unfold ensuredQueues
  cases hg : mapGet w.queues key with
  | some e => exact ⟨rfl, rfl⟩
  | none =>
    by_cases hk : k = key
    · subst hk
      rw [mapGet_mapSet_self, hg]
      exact ⟨rfl, rfl⟩
    · rw [mapGet_mapSet_ne _ _ hk]
      exact ⟨rfl, rfl⟩

theorem optQueueLen (m : Option SessionQueue) :
    ((m.map (fun q => q.queue.length)).getD 0) =
      ((m.map (fun q => q.queue)).getD []).length := by
  cases m <;> rfl

/-- C9: Enqueue signals a usage error if and only if the session key is
blank after trimming; with a valid session key and text that trims to
empty the call succeeds without calling the store (the store state is
untouched), adds nothing to any FIFO, and leaves HasPending, Drain
results and ContextChanged results unchanged for every session, with no
context key recorded. -/
theorem enqueue_blank_key_error_blank_text_noop (sz : ContextEvent → Nat)
    (rp fp : String → String) (now : Int) (w : World) (text : String)
    (options : SystemEventOptions) :
    ((∃ err, enqueueSystemEvent sz rp fp now w text options = Except.error err) ↔
        jsTrim options.sessionKey = "") ∧
      (jsTrim options.sessionKey ≠ "" → jsTrim text = "" →
        ∃ w', enqueueSystemEvent sz rp fp now w text options = Except.ok w' ∧
          w'.bus = w.bus ∧
          (∀ s, ((mapGet w'.queues s).map (fun q => q.queue)).getD [] =
            ((mapGet w.queues s).map (fun q => q.queue)).getD []) ∧
          (∀ s, hasSystemEvents w' s = hasSystemEvents w s) ∧
          (∀ s, Except.map Prod.fst (drainSystemEventEntries w' s) =
            Except.map Prod.fst (drainSystemEventEntries w s)) ∧
          (∀ s ck, isSystemEventContextChanged w' s ck =
            isSystemEventContextChanged w s ck)) := by
  constructor
  · constructor
    · rintro ⟨err, herr⟩
      by_contra hk
      obtain ⟨w', hw'⟩ := @enqueueSystemEvent_ok sz rp fp now w text options hk
      rw [hw'] at herr
      exact Except.noConfusion herr
    · intro h
      exact ⟨_, enqueueSystemEvent_blank_key h⟩
  · intro hk ht
    refine ⟨{ w with queues := ensuredQueues w (jsTrim options.sessionKey) },
      enqueueSystemEvent_blank_text hk ht, rfl, ?_, ?_, ?_, ?_⟩
    · intro s
      exact (ensuredQueues_obs w _ s).1
    · intro s
      unfold hasSystemEvents requireSessionKey
      simp only [Option.getD_some]
      by_cases hs : jsTrim s = ""
      · simp only [if_pos hs]
      · simp only [if_neg hs]
        rw [optQueueLen, optQueueLen, (ensuredQueues_obs w _ _).1]
    · intro s
      unfold drainSystemEventEntries requireSessionKey
      simp only [Option.getD_some]
      by_cases hs : jsTrim s = ""
      · simp only [if_pos hs]
      · simp only [if_neg hs]
        cases ha : mapGet (ensuredQueues w (jsTrim options.sessionKey)) (jsTrim s) with
        | none =>
          cases hb : mapGet w.queues (jsTrim s) with
          | none => rfl
          | some b =>
            have hobs := (ensuredQueues_obs w (jsTrim options.sessionKey) (jsTrim s)).1
            rw [ha, hb] at hobs
            simp at hobs
            simp [hobs, Except.map]
        | some a =>
          cases hb : mapGet w.queues (jsTrim s) with
          | none =>
            have hobs := (ensuredQueues_obs w (jsTrim options.sessionKey) (jsTrim s)).1
            rw [ha, hb] at hobs
            simp at hobs
            simp [hobs, Except.map]
          | some b =>
            have hobs := (ensuredQueues_obs w (jsTrim options.sessionKey) (jsTrim s)).1
            rw [ha, hb] at hobs
            simp at hobs
            by_cases hq : b.queue.length = 0 <;> simp [hobs, hq, Except.map]
    · intro s ck
      unfold isSystemEventContextChanged requireSessionKey
      simp only [Option.getD_some]
      by_cases hs : jsTrim s = ""
      · simp only [if_pos hs]
      · simp only [if_neg hs]
        rw [(ensuredQueues_obs w _ _).2]

/-- Witness for C9 at a concrete world: valid key, blank text. -/
theorem enqueue_blank_key_error_blank_text_noop_witness :
    (jsTrim ("s" : String) ≠ "" ∧ jsTrim (" " : String) = "") ∧
      (∃ w', enqueueSystemEvent (fun _ => 1) (fun _ => "f") (fun t => t) 0 emptyWorld " "
          { sessionKey := "s" } = Except.ok w' ∧
        w'.bus = emptyWorld.bus ∧
        (∀ s, ((mapGet w'.queues s).map (fun q => q.queue)).getD [] =
          ((mapGet emptyWorld.queues s).map (fun q => q.queue)).getD []) ∧
        (∀ s, hasSystemEvents w' s = hasSystemEvents emptyWorld s) ∧
        (∀ s, Except.map Prod.fst (drainSystemEventEntries w' s) =
          Except.map Prod.fst (drainSystemEventEntries emptyWorld s)) ∧
        (∀ s ck, isSystemEventContextChanged w' s ck =
          isSystemEventContextChanged emptyWorld s ck)) :=
  ⟨⟨by decide, by decide⟩,
    (enqueue_blank_key_error_blank_text_noop (fun _ => 1) (fun _ => "f") (fun t => t) 0
      emptyWorld " " { sessionKey := "s" }).2 (by decide) (by decide)⟩

/-! ### Claim C7 -/

/-- C7: ContextChanged is true for any key normalizing to a non-null
value while no context key is recorded for the session; after an Enqueue
with non-empty text and context key `ck` — whether or not the store
reported a duplicate — the normalized `ck` is recorded as the session's
last context key, ContextChanged for `ck` is false, and ContextChanged
for any `k'` is true exactly when the normalization of `k'` differs from
that of `ck`. -/
theorem context_change_detection (sz : ContextEvent → Nat) (rp fp : String → String)
    (now : Int) (w : World) (s : String) (k : Option String) :
    (jsTrim s ≠ "" →
      ((mapGet w.queues (jsTrim s)).bind (fun q => q.lastContextKey)) = none →
      normalizeContextKey k ≠ none →
      isSystemEventContextChanged w s k = Except.ok true) ∧
    (∀ (text : String) (options : SystemEventOptions) (w' : World),
      jsTrim options.sessionKey ≠ "" → jsTrim text ≠ "" →
      enqueueSystemEvent sz rp fp now w text options = Except.ok w' →
      (mapGet w'.queues (jsTrim options.sessionKey)).bind (fun q => q.lastContextKey) =
          normalizeContextKey options.contextKey ∧
        isSystemEventContextChanged w' options.sessionKey options.contextKey =
          Except.ok false ∧
        ∀ k', isSystemEventContextChanged w' options.sessionKey k' =
          Except.ok (decide (normalizeContextKey k' ≠
            normalizeContextKey options.contextKey))) := by
  constructor
  · intro hs hnone hk
    unfold isSystemEventContextChanged requireSessionKey
    simp only [Option.getD_some, if_neg hs]
    rw [hnone]
    simp [hk]
  · intro text options w' hk ht hw'
    rw [enqueueSystemEvent_text hk ht] at hw'
    have hbind : (mapGet w'.queues (jsTrim options.sessionKey)).bind
        (fun q => q.lastContextKey) = normalizeContextKey options.contextKey := by
      by_cases ha : (appendContextEvent sz rp now w.bus
          (resolvedAppendInput fp text options)).1.appended
      · simp only [ha, Bool.not_true, Bool.false_eq_true, if_false,
          Except.ok.injEq] at hw'
        rw [← hw']
        rw [mapGet_mapSet_self]
        rfl
      · rw [Bool.not_eq_true] at ha
        simp only [ha, Bool.not_false, if_true, Except.ok.injEq] at hw'
        rw [← hw']
        rw [mapGet_mapSet_self]
        rfl
    have hall : ∀ k', isSystemEventContextChanged w' options.sessionKey k' =
        Except.ok (decide (normalizeContextKey k' ≠
          normalizeContextKey options.contextKey)) := by
      intro k'
      unfold isSystemEventContextChanged requireSessionKey
      simp only [Option.getD_some, if_neg hk]
      rw [hbind]
    refine ⟨hbind, ?_, hall⟩
    rw [hall options.contextKey]
    simp

def witC7Options : SystemEventOptions := { sessionKey := "s", contextKey := some "Ctx-A" }

def witC7World : World :=
  ((enqueueSystemEvent (fun _ => 1) (fun _ => "f") (fun t => t) 0 emptyWorld "hello"
    witC7Options).toOption).getD emptyWorld

/-- Witness for C7: fresh session, then one enqueue with a context key. -/
theorem context_change_detection_witness :
    (jsTrim ("s" : String) ≠ "" ∧
        ((mapGet emptyWorld.queues (jsTrim "s")).bind (fun q => q.lastContextKey)) = none ∧
        normalizeContextKey (some "Ctx-A") ≠ none ∧
        isSystemEventContextChanged emptyWorld "s" (some "Ctx-A") = Except.ok true) ∧
      (jsTrim witC7Options.sessionKey ≠ "" ∧ jsTrim ("hello" : String) ≠ "" ∧
        enqueueSystemEvent (fun _ => 1) (fun _ => "f") (fun t => t) 0 emptyWorld "hello"
          witC7Options = Except.ok witC7World ∧
        ((mapGet witC7World.queues (jsTrim witC7Options.sessionKey)).bind
            (fun q => q.lastContextKey) = normalizeContextKey witC7Options.contextKey ∧
          isSystemEventContextChanged witC7World witC7Options.sessionKey
            witC7Options.contextKey = Except.ok false ∧
          ∀ k', isSystemEventContextChanged witC7World witC7Options.sessionKey k' =
            Except.ok (decide (normalizeContextKey k' ≠
              normalizeContextKey witC7Options.contextKey)))) :=
  ⟨⟨by decide, by decide, by decide,
    (context_change_detection (fun _ => 1) (fun _ => "f") (fun t => t) 0 emptyWorld "s"
      (some "Ctx-A")).1 (by decide) (by decide) (by decide)⟩,
   ⟨by decide, by decide, by rfl,
    (context_change_detection (fun _ => 1) (fun _ => "f") (fun t => t) 0 emptyWorld "s"
      (some "Ctx-A")).2 "hello" witC7Options witC7World (by decide) (by decide)
      (by rfl)⟩⟩

/-! ### Claim C8 -/

/-- Counterexample to C8 as stated: with explicit `idempotencyKey`
" ABC ", explicit `sourceId` " SID " and an explicit blank hash " ", the
fields forwarded to the store are the trimmed and lowercased key "abc"
(not the explicit value " ABC "), the trimmed id "SID" (not " SID "), and
the content fingerprint of the text (not the lowercased/trimmed explicit
hash ""). -/
theorem enqueue_field_resolution_cex :
    (resolvedAppendInput (fun t => "fp-" ++ t) "hello"
        { sessionKey := "s", sourceId := some " SID ",
          hash := some " ", idempotencyKey := some " ABC " }).idempotencyKey = "abc" ∧
      ("abc" : String) ≠ " ABC " ∧
      (resolvedAppendInput (fun t => "fp-" ++ t) "hello"
        { sessionKey := "s", sourceId := some " SID ",
          hash := some " ", idempotencyKey := some " ABC " }).sourceId = "SID" ∧
      ("SID" : String) ≠ " SID " ∧
      (resolvedAppendInput (fun t => "fp-" ++ t) "hello"
        { sessionKey := "s", sourceId := some " SID ",
          hash := some " ", idempotencyKey := some " ABC " }).hash = "fp-hello" ∧
      ("fp-hello" : String) ≠ "" := by
  refine ⟨by decide, by decide, by decide, by decide, by decide, by decide⟩

/-- C8 (amended): the fields Enqueue forwards to the store are derived
as: `source` is the input source trimmed and lowercased, defaulting to
"system" when absent or blank; `sourceId` is the explicit value trimmed
if non-blank, else the normalized context key, else the (trimmed) session
key; `hash` is the explicit value trimmed and lowercased if non-blank,
else the content fingerprint of the trimmed text; `idempotencyKey` is the
explicit value trimmed and lowercased if non-blank, else
`source:sourceId:hash` built from the resolved fields. -/
theorem enqueue_field_resolution (fp : String → String) (text : String)
    (options : SystemEventOptions) :
    (resolvedAppendInput fp text options).source =
        (if jsToLower (jsTrim (options.source.getD "")) = "" then "system"
         else jsToLower (jsTrim (options.source.getD ""))) ∧
      (resolvedAppendInput fp text options).sourceId =
        (if jsTrim (options.sourceId.getD "") ≠ "" then jsTrim (options.sourceId.getD "")
         else match normalizeContextKey options.contextKey with
           | some context => context
           | none => jsTrim options.sessionKey) ∧
      (resolvedAppendInput fp text options).hash =
        (if jsToLower (jsTrim (options.hash.getD "")) ≠ ""
         then jsToLower (jsTrim (options.hash.getD ""))
         else fp (jsTrim text)) ∧
      (resolvedAppendInput fp text options).idempotencyKey =
        (if jsToLower (jsTrim (options.idempotencyKey.getD "")) ≠ ""
         then jsToLower (jsTrim (options.idempotencyKey.getD ""))
         else (resolvedAppendInput fp text options).source ++ ":" ++
           (resolvedAppendInput fp text options).sourceId ++ ":" ++
           (resolvedAppendInput fp text options).hash) ∧
      (resolvedAppendInput fp text options).text = jsTrim text ∧
      (resolvedAppendInput fp text options).sessionKey = jsTrim options.sessionKey := by
  refine ⟨rfl, rfl, rfl, ?_, rfl, rfl⟩
  show resolveIdempotencyKey _ _ _ _ = _
  unfold resolveIdempotencyKey
  rfl

/-! ### Claim C5 -/

/-- Number of entries currently queued for a session. -/
def queueLen (w : World) (k : String) : Nat :=
  ((mapGet w.queues k).map (fun q => q.queue.length)).getD 0

theorem pushBounded_length_le (q : List SystemEvent) (e : SystemEvent)
    (h : q.length ≤ MAX_EVENTS) : (pushBounded q e).length ≤ MAX_EVENTS := by
  unfold pushBounded
  show (if (q ++ [e]).length > MAX_EVENTS then List.drop 1 (q ++ [e])
    else (q ++ [e])).length ≤ MAX_EVENTS
  split
  · simp only [List.length_drop, List.length_append, List.length_cons, List.length_nil]
    omega
  · next hl =>
    simp only [List.length_append, List.length_cons, List.length_nil]
    simp only [gt_iff_lt, not_lt, List.length_append, List.length_cons,
      List.length_nil] at hl
    omega

/-- Embeds a sequence of `enqueueSystemEvent` calls. -/
def enqueueAll (sz : ContextEvent → Nat) (rp fp : String → String) (now : Int) :
    World → List (String × SystemEventOptions) → Except String World
  | w, [] => Except.ok w
  | w, (text, options) :: rest =>
    match enqueueSystemEvent sz rp fp now w text options with
    | Except.error e => Except.error e
    | Except.ok w' => enqueueAll sz rp fp now w' rest

def c5Inputs : List (String × SystemEventOptions) :=
  (List.range 25).map (fun i =>
    (String.mk (List.replicate (i + 1) 'b'),
     { sessionKey := "s", idempotencyKey := some (String.mk (List.replicate (i + 1) 'k')) }))

def witC5World : World :=
  ((enqueueAll (fun _ => 1) (fun _ => "f") (fun t => t) 0 emptyWorld c5Inputs).toOption).getD
    emptyWorld

set_option maxRecDepth 8000 in
/-- C5: a session's delivery queue never grows beyond 20 entries — every
Enqueue preserves the bound, evicting the oldest entry when it would be
exceeded — and concretely, enqueuing 25 distinct (non-duplicate) events
into one session and draining returns exactly the most recent 20 in their
original relative order. -/
theorem queue_bounded_fifo_eviction :
    (∀ (sz : ContextEvent → Nat) (rp fp : String → String) (now : Int) (w : World)
        (text : String) (options : SystemEventOptions) (w' : World),
        (∀ k, queueLen w k ≤ MAX_EVENTS) →
        enqueueSystemEvent sz rp fp now w text options = Except.ok w' →
        ∀ k, queueLen w' k ≤ MAX_EVENTS) ∧
      (enqueueAll (fun _ => 1) (fun _ => "f") (fun t => t) 0 emptyWorld c5Inputs =
          Except.ok witC5World ∧
        Except.map (fun p => p.1.map (fun e => e.text))
            (drainSystemEventEntries witC5World "s") =
          Except.ok (((List.range 25).drop 5).map
            (fun i => String.mk (List.replicate (i + 1) 'b')))) := by
  constructor
  · intro sz rp fp now w text options w' hb henq k
    have hklen : ∀ k,
        queueLen { w with queues := ensuredQueues w (jsTrim options.sessionKey) } k =
          queueLen w k := by
      intro k
      unfold queueLen
      rw [optQueueLen, optQueueLen]
      rw [(ensuredQueues_obs w (jsTrim options.sessionKey) k).1]
    by_cases hk : jsTrim options.sessionKey = ""
    · rw [enqueueSystemEvent_blank_key hk] at henq
      exact Except.noConfusion henq
    by_cases ht : jsTrim text = ""
    · rw [enqueueSystemEvent_blank_text hk ht] at henq
      injection henq with henq
      rw [← henq, hklen k]
      exact hb k
    rw [enqueueSystemEvent_text hk ht] at henq
    by_cases hkey : k = jsTrim options.sessionKey
    · subst hkey
      by_cases ha : (appendContextEvent sz rp now w.bus
          (resolvedAppendInput fp text options)).1.appended
      · simp only [ha, Bool.not_true, Bool.false_eq_true, if_false,
          Except.ok.injEq] at henq
        rw [← henq]
        unfold queueLen
        rw [mapGet_mapSet_self]
        exact pushBounded_length_le _ _ (by
          have := hb (jsTrim options.sessionKey)
          unfold queueLen at this
          rw [optQueueLen] at this
          show ((mapGet w.queues (jsTrim options.sessionKey)).getD
            ⟨[], none⟩).queue.length ≤ MAX_EVENTS
          cases hgw : mapGet w.queues (jsTrim options.sessionKey) with
          | none => simp [MAX_EVENTS]
          | some q =>
            rw [hgw] at this
            simpa using this)
      · rw [Bool.not_eq_true] at ha
        simp only [ha, Bool.not_false, if_true, Except.ok.injEq] at henq
        rw [← henq]
        unfold queueLen
        rw [mapGet_mapSet_self]
        have := hb (jsTrim options.sessionKey)
        unfold queueLen at this
        rw [optQueueLen] at this
        show ((mapGet w.queues (jsTrim options.sessionKey)).getD
          ⟨[], none⟩).queue.length ≤ MAX_EVENTS
        cases hgw : mapGet w.queues (jsTrim options.sessionKey) with
        | none => simp [MAX_EVENTS]
        | some q =>
          rw [hgw] at this
          simpa using this
    · have hq : queueLen w' k = queueLen w k := by
        by_cases ha : (appendContextEvent sz rp now w.bus
            (resolvedAppendInput fp text options)).1.appended
        · simp only [ha, Bool.not_true, Bool.false_eq_true, if_false,
            Except.ok.injEq] at henq
          rw [← henq]
          unfold queueLen
          rw [mapGet_mapSet_ne _ _ hkey, optQueueLen, optQueueLen,
            (ensuredQueues_obs w (jsTrim options.sessionKey) k).1]
        · rw [Bool.not_eq_true] at ha
          simp only [ha, Bool.not_false, if_true, Except.ok.injEq] at henq
          rw [← henq]
          unfold queueLen
          rw [mapGet_mapSet_ne _ _ hkey, optQueueLen, optQueueLen,
            (ensuredQueues_obs w (jsTrim options.sessionKey) k).1]
      rw [hq]
      exact hb k
  · exact ⟨by rfl, by rfl⟩

def witC5bWorld : World :=
  ((enqueueSystemEvent (fun _ => 1) (fun _ => "f") (fun t => t) 0 emptyWorld "hello"
    { sessionKey := "s" }).toOption).getD emptyWorld

/-- Witness for C5's bound preservation at a concrete enqueue. -/
theorem queue_bounded_fifo_eviction_witness :
    (∀ k, queueLen emptyWorld k ≤ MAX_EVENTS) ∧
      enqueueSystemEvent (fun _ => 1) (fun _ => "f") (fun t => t) 0 emptyWorld "hello"
        { sessionKey := "s" } = Except.ok witC5bWorld ∧
      (∀ k, queueLen witC5bWorld k ≤ MAX_EVENTS) :=
  ⟨fun _ => Nat.zero_le _,
   by rfl,
   queue_bounded_fifo_eviction.1 (fun _ => 1) (fun _ => "f") (fun t => t) 0 emptyWorld
     "hello" { sessionKey := "s" } witC5bWorld (fun _ => Nat.zero_le _) (by rfl)⟩

/-! ### Lemmas about querying -/

theorem takeLast_length {α : Type} (l : List α) (n : Nat) :
    (takeLast l n).length = min n l.length := by
  simp only [takeLast, List.length_drop]
  omega

theorem queryContextEvents_blank {rp : String → String} {w : BusWorld}
    {params : QueryParams} (hk : jsTrim (params.sessionKey.getD "") = "") :
    queryContextEvents rp w params = ([], w) := by
  unfold queryContextEvents
  simp [hk]

theorem queryContextEvents_eq {rp : String → String} {w : BusWorld}
    {params : QueryParams} (hk : jsTrim (params.sessionKey.getD "") ≠ "") :
    queryContextEvents rp w params =
      (let sessionKey := jsTrim (params.sessionKey.getD "")
       let st := loadedState w (rp sessionKey)
       let source := jsToLower (jsTrim (params.source.getD ""))
       let afterSeq := jsFiniteFloor params.afterSeq 0
       let limit : Int := max 1 (min 2000 (jsFiniteFloor params.limit 200))
       let result := queryFilter st.events sessionKey source afterSeq
       if (result.length : Int) ≤ limit then (result, (loadBusState w (rp sessionKey)).2)
       else (takeLast result limit.toNat, (loadBusState w (rp sessionKey)).2)) := by
  unfold queryContextEvents loadedState
  simp [hk]

theorem queryFilter_sublist (events : List ContextEvent) (sessionKey source : String)
    (afterSeq : Int) : (queryFilter events sessionKey source afterSeq).Sublist events :=
  List.filter_sublist _

theorem queryFilter_mem {events : List ContextEvent} {sessionKey source : String}
    {afterSeq : Int} {e : ContextEvent} :
    e ∈ queryFilter events sessionKey source afterSeq ↔
      e ∈ events ∧ e.sessionKey = sessionKey ∧ afterSeq < e.seq ∧
        (source = "" ∨ jsToLower e.source = source) := by
  unfold queryFilter
  rw [List.mem_filter]
  simp [and_assoc]

/-! ### Claim C4 -/

/-- C4: for every Query with a valid session key, when the partition's
in-memory events are strictly seq-sorted the result is exactly the events
of that session with `seq` above `afterSeq` (default 0), filtered by
case-insensitive source match when supplied, in ascending seq order,
capped at the clamped limit; when more than `limit` events match, the
result is the most recent `limit` of them (a suffix of the matches); and
Query leaves the backing files and every partition's observable state
unchanged. -/
theorem query_semantics (rp : String → String) (w : BusWorld) (params : QueryParams)
    (hk : jsTrim (params.sessionKey.getD "") ≠ "")
    (hsorted : List.Pairwise (fun a b => a.seq < b.seq)
      (loadedState w (rp (jsTrim (params.sessionKey.getD "")))).events) :
    (queryContextEvents rp w params).1 =
        (if ((queryFilter (loadedState w (rp (jsTrim (params.sessionKey.getD "")))).events
              (jsTrim (params.sessionKey.getD ""))
              (jsToLower (jsTrim (params.source.getD "")))
              (jsFiniteFloor params.afterSeq 0)).length : Int) ≤
            max 1 (min 2000 (jsFiniteFloor params.limit 200)) then
          queryFilter (loadedState w (rp (jsTrim (params.sessionKey.getD "")))).events
            (jsTrim (params.sessionKey.getD ""))
            (jsToLower (jsTrim (params.source.getD "")))
            (jsFiniteFloor params.afterSeq 0)
         else
          takeLast (queryFilter (loadedState w
              (rp (jsTrim (params.sessionKey.getD "")))).events
            (jsTrim (params.sessionKey.getD ""))
            (jsToLower (jsTrim (params.source.getD "")))
            (jsFiniteFloor params.afterSeq 0))
            (max 1 (min 2000 (jsFiniteFloor params.limit 200))).toNat) ∧
      List.Pairwise (fun a b => a.seq < b.seq) (queryContextEvents rp w params).1 ∧
      (queryContextEvents rp w params).1.IsSuffix
        (queryFilter (loadedState w (rp (jsTrim (params.sessionKey.getD "")))).events
          (jsTrim (params.sessionKey.getD ""))
          (jsToLower (jsTrim (params.source.getD "")))
          (jsFiniteFloor params.afterSeq 0)) ∧
      ((queryContextEvents rp w params).1.length : Int) ≤
        max 1 (min 2000 (jsFiniteFloor params.limit 200)) ∧
      (queryContextEvents rp w params).2.files = w.files ∧
      (∀ q, loadedState (queryContextEvents rp w params).2 q = loadedState w q) := by
  rw [queryContextEvents_eq hk]
  set key := jsTrim (params.sessionKey.getD "") with hkey
  set st := loadedState w (rp key) with hst
  set source := jsToLower (jsTrim (params.source.getD "")) with hsource
  set afterSeq := jsFiniteFloor params.afterSeq 0 with hafter
  set limit : Int := max 1 (min 2000 (jsFiniteFloor params.limit 200)) with hlimit
  set hits := queryFilter st.events key source afterSeq with hhits
  have hlim1 : (1 : Int) ≤ limit := le_max_left _ _
  have hsub : hits.Sublist st.events := queryFilter_sublist _ _ _ _
  by_cases hle : (hits.length : Int) ≤ limit
  · simp only [if_pos hle]
    refine ⟨trivial, ?_, List.suffix_rfl, hle, loadBusState_files _ _,
      fun q => loadedState_stable _ _ q⟩
    exact hsorted.sublist hsub
  · simp only [if_neg hle]
    have hsuffix : (takeLast hits limit.toNat).IsSuffix hits :=
      takeLast_suffix _ _
    refine ⟨trivial, ?_, hsuffix, ?_, loadBusState_files _ _,
      fun q => loadedState_stable _ _ q⟩
    · exact hsorted.sublist (hsuffix.sublist.trans hsub)
    · rw [takeLast_length]
      push_neg at hle
      have h0 : (0 : Int) ≤ limit := le_trans (by norm_num) hlim1
      omega

/-- Witness for C4 at a concrete one-event partition. -/
theorem query_semantics_witness :
    (jsTrim ((some "s" : Option String).getD "") ≠ "" ∧
        List.Pairwise (fun a b => a.seq < b.seq)
          (loadedState witWorld ((fun _ => "f") (jsTrim ((some "s" :
            Option String).getD "")))).events) ∧
      ((queryContextEvents (fun _ => "f") witWorld { sessionKey := some "s" }).1 =
          queryFilter (loadedState witWorld "f").events "s" "" 0 ∧
        (queryContextEvents (fun _ => "f") witWorld { sessionKey := some "s" }).2.files =
          witWorld.files) :=
  ⟨⟨by decide, by decide⟩, by
    have h := query_semantics (fun _ => "f") witWorld { sessionKey := some "s" }
      (by decide) (by decide)
    refine ⟨?_, h.2.2.2.2.1⟩
    have h1 := h.1
    rw [if_pos (by decide)] at h1
    exact h1⟩

/-! ### Claim C10 -/

set_option maxRecDepth 4000 in
/-- C10: the effective Query limit is clamped to [1, 2000]: a supplied
limit of 0 or below returns the single most recent matching event rather
than an empty result (when any event matches), a missing or non-finite
limit defaults to 200, and a limit above 2000 is capped at 2000; a Query
whose session key is missing or blank returns the empty sequence and
LatestSeq of a blank key returns 0, with no error — in contrast to the
delivery queue's operations, which throw on a blank session key. -/
theorem query_limit_clamp_and_blank_keys (rp : String → String) (w : BusWorld) :
    (∀ (params : QueryParams) (q : ℚ),
        jsTrim (params.sessionKey.getD "") ≠ "" →
        params.limit = some (JsNum.fin q) → jsFloor q ≤ 0 →
        queryFilter (loadedState w (rp (jsTrim (params.sessionKey.getD "")))).events
            (jsTrim (params.sessionKey.getD ""))
            (jsToLower (jsTrim (params.source.getD "")))
            (jsFiniteFloor params.afterSeq 0) ≠ [] →
        (queryContextEvents rp w params).1 =
            takeLast (queryFilter (loadedState w
                (rp (jsTrim (params.sessionKey.getD "")))).events
              (jsTrim (params.sessionKey.getD ""))
              (jsToLower (jsTrim (params.source.getD "")))
              (jsFiniteFloor params.afterSeq 0)) 1 ∧
          (queryContextEvents rp w params).1.length = 1) ∧
      (∀ (params : QueryParams) (q : ℚ),
        jsTrim (params.sessionKey.getD "") ≠ "" →
        params.limit = some (JsNum.fin q) → 2000 ≤ jsFloor q →
        (queryContextEvents rp w params).1 =
          (if ((queryFilter (loadedState w
                (rp (jsTrim (params.sessionKey.getD "")))).events
              (jsTrim (params.sessionKey.getD ""))
              (jsToLower (jsTrim (params.source.getD "")))
              (jsFiniteFloor params.afterSeq 0)).length : Int) ≤ 2000 then
            queryFilter (loadedState w (rp (jsTrim (params.sessionKey.getD "")))).events
              (jsTrim (params.sessionKey.getD ""))
              (jsToLower (jsTrim (params.source.getD "")))
              (jsFiniteFloor params.afterSeq 0)
           else
            takeLast (queryFilter (loadedState w
                (rp (jsTrim (params.sessionKey.getD "")))).events
              (jsTrim (params.sessionKey.getD ""))
              (jsToLower (jsTrim (params.source.getD "")))
              (jsFiniteFloor params.afterSeq 0)) 2000)) ∧
      (∀ (params : QueryParams),
        jsTrim (params.sessionKey.getD "") ≠ "" →
        (params.limit = none ∨ params.limit = some JsNum.nan ∨
          params.limit = some JsNum.posInf ∨ params.limit = some JsNum.negInf) →
        (queryContextEvents rp w params).1 =
          (if ((queryFilter (loadedState w
                (rp (jsTrim (params.sessionKey.getD "")))).events
              (jsTrim (params.sessionKey.getD ""))
              (jsToLower (jsTrim (params.source.getD "")))
              (jsFiniteFloor params.afterSeq 0)).length : Int) ≤ 200 then
            queryFilter (loadedState w (rp (jsTrim (params.sessionKey.getD "")))).events
              (jsTrim (params.sessionKey.getD ""))
              (jsToLower (jsTrim (params.source.getD "")))
              (jsFiniteFloor params.afterSeq 0)
           else
            takeLast (queryFilter (loadedState w
                (rp (jsTrim (params.sessionKey.getD "")))).events
              (jsTrim (params.sessionKey.getD ""))
              (jsToLower (jsTrim (params.source.getD "")))
              (jsFiniteFloor params.afterSeq 0)) 200)) ∧
      (∀ (params : QueryParams), jsTrim (params.sessionKey.getD "") = "" →
        queryContextEvents rp w params = ([], w)) ∧
      (∀ s, jsTrim s = "" → getContextEventLatestSeq rp w s = (0, w)) ∧
      (∀ (wq : World) (s : String), jsTrim s = "" →
        drainSystemEventEntries wq s =
            Except.error "system events require a sessionKey" ∧
          hasSystemEvents wq s = Except.error "system events require a sessionKey" ∧
          (∀ ck, isSystemEventContextChanged wq s ck =
            Except.error "system events require a sessionKey") ∧
          (∀ (sz : ContextEvent → Nat) (fp : String → String) (now : Int)
            (text : String) (options : SystemEventOptions),
            options.sessionKey = s →
            enqueueSystemEvent sz rp fp now wq text options =
              Except.error "system events require a sessionKey")) := by
  refine ⟨?_, ?_, ?_, ?_, ?_, ?_⟩
  · intro params q hk hq hq0 hne
    rw [queryContextEvents_eq hk]
    set key := jsTrim (params.sessionKey.getD "")
    set st := loadedState w (rp key)
    set source := jsToLower (jsTrim (params.source.getD ""))
    set afterSeq := jsFiniteFloor params.afterSeq 0
    set hits := queryFilter st.events key source afterSeq with hhits
    have hlimit : max 1 (min 2000 (jsFiniteFloor params.limit 200)) = 1 := by
      rw [hq]
      show max 1 (min 2000 (jsFloor q)) = 1
      omega
    rw [hlimit]
    have hpos : 0 < hits.length := List.length_pos.2 hne
    by_cases hle : (hits.length : Int) ≤ 1
    · simp only [if_pos hle]
      have hlen1 : hits.length = 1 := by omega
      constructor
      · rw [takeLast_eq_self _ (le_of_eq hlen1)]
      · exact hlen1
    · simp only [if_neg hle]
      refine ⟨rfl, ?_⟩
      show (takeLast hits (1 : Int).toNat).length = 1
      rw [takeLast_length]
      omega
  · intro params q hk hq hq2000
    rw [queryContextEvents_eq hk]
    have hlimit2000 : max 1 (min 2000 (jsFiniteFloor params.limit 200)) = 2000 := by
      rw [hq]
      show max 1 (min 2000 (jsFloor q)) = 2000
      omega
    rw [hlimit2000]
    norm_num
    by_cases hc : (queryFilter (loadedState w
          (rp (jsTrim (params.sessionKey.getD "")))).events
        (jsTrim (params.sessionKey.getD ""))
        (jsToLower (jsTrim (params.source.getD "")))
        (jsFiniteFloor params.afterSeq 0)).length ≤ 2000
    · rw [if_pos hc, if_pos hc]
    · rw [if_neg hc, if_neg hc]
      have h2 : (2000 : Int).toNat = 2000 := by decide
      rw [h2]
  · intro params hk hnf
    rw [queryContextEvents_eq hk]
    have hdef : jsFiniteFloor params.limit 200 = 200 := by
      rcases hnf with h | h | h | h <;> rw [h] <;> rfl
    rw [hdef]
    norm_num
    by_cases hc : (queryFilter (loadedState w
          (rp (jsTrim (params.sessionKey.getD "")))).events
        (jsTrim (params.sessionKey.getD ""))
        (jsToLower (jsTrim (params.source.getD "")))
        (jsFiniteFloor params.afterSeq 0)).length ≤ 200
    · rw [if_pos hc, if_pos hc]
    · rw [if_neg hc, if_neg hc]
      congr 1
  · intro params hk
    exact queryContextEvents_blank hk
  · intro s hs
    unfold getContextEventLatestSeq
    simp [hs]
  · intro wq s hs
    refine ⟨?_, ?_, fun ck => ?_, ?_⟩
    · unfold drainSystemEventEntries requireSessionKey
      simp [hs]
    · unfold hasSystemEvents requireSessionKey
      simp [hs]
    · unfold isSystemEventContextChanged requireSessionKey
      simp [hs]
    · intro sz fp now text options hsk
      exact enqueueSystemEvent_blank_key (by rw [hsk]; exact hs)

def p10 : QueryParams := { sessionKey := some "s", limit := some (JsNum.fin 0) }

def p10b : QueryParams := { sessionKey := some "s", limit := some (JsNum.fin 5000) }

/-- Witness for C10: limit 0 and limit 5000 on a one-event partition, and blank keys. -/
theorem query_limit_clamp_and_blank_keys_witness :
    (jsTrim (p10.sessionKey.getD "") ≠ "" ∧ p10.limit = some (JsNum.fin 0) ∧
        jsFloor 0 ≤ 0 ∧
        queryFilter (loadedState witWorld ((fun _ => "f")
            (jsTrim (p10.sessionKey.getD "")))).events
          (jsTrim (p10.sessionKey.getD "")) (jsToLower (jsTrim (p10.source.getD "")))
          (jsFiniteFloor p10.afterSeq 0) ≠ []) ∧
      ((queryContextEvents (fun _ => "f") witWorld p10).1 =
          takeLast (queryFilter (loadedState witWorld ((fun _ => "f")
              (jsTrim (p10.sessionKey.getD "")))).events
            (jsTrim (p10.sessionKey.getD "")) (jsToLower (jsTrim (p10.source.getD "")))
            (jsFiniteFloor p10.afterSeq 0)) 1 ∧
        (queryContextEvents (fun _ => "f") witWorld p10).1.length = 1) ∧
      (jsTrim (p10b.sessionKey.getD "") ≠ "" ∧
        p10b.limit = some (JsNum.fin 5000) ∧ (2000 : Int) ≤ jsFloor 5000 ∧
        (queryContextEvents (fun _ => "f") witWorld p10b).1 =
          (if ((queryFilter (loadedState witWorld ((fun _ => "f")
                  (jsTrim (p10b.sessionKey.getD "")))).events
                (jsTrim (p10b.sessionKey.getD ""))
                (jsToLower (jsTrim (p10b.source.getD "")))
                (jsFiniteFloor p10b.afterSeq 0)).length : Int) ≤ 2000 then
            queryFilter (loadedState witWorld ((fun _ => "f")
                (jsTrim (p10b.sessionKey.getD "")))).events
              (jsTrim (p10b.sessionKey.getD ""))
              (jsToLower (jsTrim (p10b.source.getD "")))
              (jsFiniteFloor p10b.afterSeq 0)
           else
            takeLast (queryFilter (loadedState witWorld ((fun _ => "f")
                (jsTrim (p10b.sessionKey.getD "")))).events
              (jsTrim (p10b.sessionKey.getD ""))
              (jsToLower (jsTrim (p10b.source.getD "")))
              (jsFiniteFloor p10b.afterSeq 0)) 2000)) ∧
      (jsTrim (" " : String) = "" ∧
        drainSystemEventEntries emptyWorld " " =
          Except.error "system events require a sessionKey") :=
  ⟨⟨by decide, rfl, by decide, by decide⟩,
   (query_limit_clamp_and_blank_keys (fun _ => "f") witWorld).1 p10 0 (by decide) rfl
     (by decide) (by decide),
   ⟨by decide, rfl, by decide,
    (query_limit_clamp_and_blank_keys (fun _ => "f") witWorld).2.1 p10b 5000
      (by decide) rfl (by decide)⟩,
   ⟨by decide, ((query_limit_clamp_and_blank_keys (fun _ => "f") witWorld).2.2.2.2.2
     emptyWorld " " (by decide)).1⟩⟩

/-! ### Claim C6 -/

theorem pruneEventFileIfNeeded_compacts {sz : ContextEvent → Nat} {w : BusWorld}
    {p : String} {st : ContextEventBusState} {records : List ContextEvent}
    (hrec : mapGet w.files p = some records)
    (hsize : ¬ fileSize sz records ≤ MAX_EVENT_FILE_BYTES) :
    pruneEventFileIfNeeded sz w p st =
      (⟨takeLast st.events KEEP_EVENT_LINES,
        rebuildByKey (takeLast st.events KEEP_EVENT_LINES), st.nextSeq⟩,
       ⟨mapSet w.files p (takeLast st.events KEEP_EVENT_LINES),
        mapSet w.mem p ⟨takeLast st.events KEEP_EVENT_LINES,
          rebuildByKey (takeLast st.events KEEP_EVENT_LINES), st.nextSeq⟩⟩) := by
  unfold pruneEventFileIfNeeded
  rw [hrec]
  simp only [if_neg hsize]

set_option maxRecDepth 4000 in
/-- C6: a successful Append whose write takes the backing file past the
byte threshold compacts the partition: the file is rewritten to exactly
the most recent `KEEP_EVENT_LINES`-sized tail of the in-memory records,
the in-memory list and dedup index are replaced with that tail, and the
partition's highest sequence number is unchanged by the compaction (the
just-appended event remains the last record, and `nextSeq` stays one past
it). -/
theorem append_compaction (sz : ContextEvent → Nat) (rp : String → String) (now : Int)
    (w : BusWorld) (input : ContextEventAppendInput)
    (hfresh : mapGet (loadedState w (rp input.sessionKey)).byKey
      input.idempotencyKey = none)
    (hsize : ¬ fileSize sz ((mapGet w.files (rp input.sessionKey)).getD [] ++
        [mkAppendEvent now (loadedState w (rp input.sessionKey)) input]) ≤
        MAX_EVENT_FILE_BYTES) :
    (appendContextEvent sz rp now w input).1 =
        ⟨true, mkAppendEvent now (loadedState w (rp input.sessionKey)) input⟩ ∧
      (loadedState (appendContextEvent sz rp now w input).2 (rp input.sessionKey)).events =
        takeLast (pushAppendEvent (loadedState w (rp input.sessionKey))
          (mkAppendEvent now (loadedState w (rp input.sessionKey)) input)).events
          KEEP_EVENT_LINES ∧
      mapGet (appendContextEvent sz rp now w input).2.files (rp input.sessionKey) =
        some ((loadedState (appendContextEvent sz rp now w input).2
          (rp input.sessionKey)).events) ∧
      (loadedState (appendContextEvent sz rp now w input).2 (rp input.sessionKey)).byKey =
        rebuildByKey ((loadedState (appendContextEvent sz rp now w input).2
          (rp input.sessionKey)).events) ∧
      (loadedState (appendContextEvent sz rp now w input).2
          (rp input.sessionKey)).events.length ≤ KEEP_EVENT_LINES ∧
      (loadedState (appendContextEvent sz rp now w input).2
          (rp input.sessionKey)).events.IsSuffix
        ((loadedState w (rp input.sessionKey)).events ++
          [mkAppendEvent now (loadedState w (rp input.sessionKey)) input]) ∧
      (loadedState (appendContextEvent sz rp now w input).2
          (rp input.sessionKey)).events.getLast? =
        some (mkAppendEvent now (loadedState w (rp input.sessionKey)) input) ∧
      (loadedState (appendContextEvent sz rp now w input).2 (rp input.sessionKey)).nextSeq =
        (loadedState w (rp input.sessionKey)).nextSeq + 1 := by
  have happend := @appendContextEvent_fresh sz rp now w input hfresh
  rw [happend]
  simp only
  set p := rp input.sessionKey with hp
  set st := loadedState w p with hst
  set event := mkAppendEvent now st input with heventdef
  set st' := pushAppendEvent st event with hstp
  set wmid := writeAppend (loadBusState w p).2 p st' event with hwmid
  have hfiles : mapGet wmid.files p =
      some ((mapGet w.files p).getD [] ++ [event]) := by
    rw [hwmid, writeAppend_files, loadBusState_files]
  have hcompact := @pruneEventFileIfNeeded_compacts sz wmid p st' _ hfiles hsize
  rw [hcompact]
  simp only
  set kept := takeLast st'.events KEEP_EVENT_LINES with hkept
  have hload : loadedState
      ⟨mapSet wmid.files p kept,
       mapSet wmid.mem p ⟨kept, rebuildByKey kept, st'.nextSeq⟩⟩ p =
      ⟨kept, rebuildByKey kept, st'.nextSeq⟩ :=
    loadedState_of_mem (mapGet_mapSet_self _ _ _)
  rw [hload]
  simp only
  refine ⟨trivial, trivial, mapGet_mapSet_self wmid.files p kept, trivial, ?_, ?_, ?_, ?_⟩
  · rw [hkept]
    exact takeLast_length_le _ _
  · rw [hkept]
    exact (takeLast_suffix _ _).trans (pushAppendEvent_suffix _ _)
  · rw [hkept, takeLast_getLast? _ (by norm_num [KEEP_EVENT_LINES])]
    exact pushAppendEvent_getLast? _ _
  · show st'.nextSeq = st.nextSeq + 1
    rw [hstp]
    exact pushAppendEvent_nextSeq _ _

def c6sz : ContextEvent → Nat := fun _ => MAX_EVENT_FILE_BYTES + 1

/-- Witness for C6: one oversized record pushes the file past the
threshold and triggers compaction. -/
theorem append_compaction_witness :
    (mapGet (loadedState emptyBusWorld ((fun _ => "f") witInput.sessionKey)).byKey
        witInput.idempotencyKey = none ∧
      ¬ fileSize c6sz ((mapGet emptyBusWorld.files ((fun _ => "f")
          witInput.sessionKey)).getD [] ++
          [mkAppendEvent 0 (loadedState emptyBusWorld ((fun _ => "f")
            witInput.sessionKey)) witInput]) ≤ MAX_EVENT_FILE_BYTES) ∧
      (loadedState (appendContextEvent c6sz (fun _ => "f") 0 emptyBusWorld witInput).2
          ((fun _ => "f") witInput.sessionKey)).events.getLast? =
        some (mkAppendEvent 0 (loadedState emptyBusWorld ((fun _ => "f")
          witInput.sessionKey)) witInput) ∧
      (loadedState (appendContextEvent c6sz (fun _ => "f") 0 emptyBusWorld witInput).2
          ((fun _ => "f") witInput.sessionKey)).nextSeq =
        (loadedState emptyBusWorld ((fun _ => "f") witInput.sessionKey)).nextSeq + 1 :=
  ⟨⟨by decide, by decide⟩,
   (append_compaction c6sz (fun _ => "f") 0 emptyBusWorld witInput (by decide)
     (by decide)).2.2.2.2.2.2.1,
   (append_compaction c6sz (fun _ => "f") 0 emptyBusWorld witInput (by decide)
     (by decide)).2.2.2.2.2.2.2⟩

/-! ### Claim C3 -/

theorem filter_getLast?_of_pos {α : Type} {p : α → Bool} {l : List α} {e : α}
    (h : l.getLast? = some e) (hp : p e = true) : (l.filter p).getLast? = some e := by
  rw [List.getLast?_eq_head?_reverse] at h ⊢
  rw [← List.filter_reverse]
  cases hrev : l.reverse with
  | nil =>
    rw [hrev] at h
    cases h
  | cons a t =>
    rw [hrev] at h
    simp only [List.head?_cons, Option.some.injEq] at h
    subst h
    rw [List.filter_cons, if_pos hp]
    rfl

theorem drain_preserves_bus {w : World} {s : String} {out : List SystemEvent}
    {w' : World} (h : drainSystemEventEntries w s = Except.ok (out, w')) :
    w'.bus = w.bus := by
  unfold drainSystemEventEntries requireSessionKey at h
  simp only [Option.getD_some] at h
  by_cases hs : jsTrim s = ""
  · rw [if_pos hs] at h
    cases h
  · rw [if_neg hs] at h
    simp only at h
    cases hq : mapGet w.queues (jsTrim s) with
    | none =>
      rw [hq] at h
      simp only at h
      injection h with h
      injection h with h1 h2
      rw [← h2]
    | some entry =>
      rw [hq] at h
      simp only at h
      by_cases hl : entry.queue.length = 0
      · rw [if_pos hl] at h
        injection h with h
        injection h with h1 h2
        rw [← h2]
      · rw [if_neg hl] at h
        injection h with h
        injection h with h1 h2
        rw [← h2]

/-- C3: for every session with a valid key, Drain returns exactly the
entries currently queued for it, in FIFO order, removes them all (an
immediate second Drain returns the empty sequence) and leaves the store
untouched; and an event freshly enqueued then drained is still returned
by a cursor Query with `afterSeq := 0` (it is the last, highest-seq
element of the query result). -/
theorem drain_exactly_once_and_cursor_replay :
    (∀ (w : World) (s : String), jsTrim s ≠ "" →
      (w.queues.map Prod.fst).Nodup →
      ∃ w', drainSystemEventEntries w s =
          Except.ok (((mapGet w.queues (jsTrim s)).map (fun q => q.queue)).getD [], w') ∧
        w'.bus = w.bus ∧
        ((mapGet w'.queues (jsTrim s)).map (fun q => q.queue)).getD [] = [] ∧
        Except.map Prod.fst (drainSystemEventEntries w' s) = Except.ok []) ∧
    (∀ (sz : ContextEvent → Nat) (rp fp : String → String) (now : Int) (w : World)
        (text : String) (options : SystemEventOptions) (w₁ : World)
        (out : List SystemEvent) (w₂ : World),
      jsTrim options.sessionKey ≠ "" → jsTrim text ≠ "" →
      mapGet (loadedState w.bus (rp (jsTrim options.sessionKey))).byKey
        (resolvedAppendInput fp text options).idempotencyKey = none →
      1 ≤ (loadedState w.bus (rp (jsTrim options.sessionKey))).nextSeq →
      enqueueSystemEvent sz rp fp now w text options = Except.ok w₁ →
      drainSystemEventEntries w₁ options.sessionKey = Except.ok (out, w₂) →
      (queryContextEvents rp w₂.bus
          { sessionKey := some options.sessionKey,
            afterSeq := some (JsNum.fin 0) }).1.getLast? =
        some (mkAppendEvent now (loadedState w.bus (rp (jsTrim options.sessionKey)))
          (resolvedAppendInput fp text options))) := by
  constructor
  · intro w s hs hnodup
    unfold drainSystemEventEntries requireSessionKey
    simp only [Option.getD_some, if_neg hs]
    cases hq : mapGet w.queues (jsTrim s) with
    | none =>
      refine ⟨w, by simp [hq], rfl, by simp [hq], ?_⟩
      simp [hq, Except.map]
    | some entry =>
      by_cases hl : entry.queue.length = 0
      · have hqe : entry.queue = [] := List.length_eq_zero.1 hl
        refine ⟨w, by simp [hq, hl, hqe], rfl, by simp [hq, hqe], ?_⟩
        simp [hq, hqe, Except.map]
      · refine ⟨{ w with queues := mapDelete w.queues (jsTrim s) },
          by simp [hq, hl], rfl, ?_, ?_⟩
        · rw [mapGet_mapDelete_self _ _ hnodup]
          rfl
        · simp [mapGet_mapDelete_self _ _ hnodup, Except.map]
  · intro sz rp fp now w text options w₁ out w₂ hk ht hfresh hseq henq hdrain
    have hfresh' : mapGet (loadedState w.bus
        (rp (resolvedAppendInput fp text options).sessionKey)).byKey
        (resolvedAppendInput fp text options).idempotencyKey = none := hfresh
    have hlast := (@loadedState_after_fresh_append sz rp now w.bus
      (resolvedAppendInput fp text options) hfresh').2
    have happ : (appendContextEvent sz rp now w.bus
        (resolvedAppendInput fp text options)).1.appended = true :=
      (appendContextEvent_appended_iff _ _ _ _ _).2 hfresh'
    have hbus₁ : w₁.bus = (appendContextEvent sz rp now w.bus
        (resolvedAppendInput fp text options)).2 := by
      rw [enqueueSystemEvent_text hk ht] at henq
      simp only [happ, Bool.not_true, Bool.false_eq_true, if_false,
        Except.ok.injEq] at henq
      rw [← henq]
    have hbus₂ : w₂.bus = w₁.bus := drain_preserves_bus hdrain
    have hk' : jsTrim (((some options.sessionKey : Option String)).getD "") ≠ "" := hk
    rw [queryContextEvents_eq hk']
    simp only
    set key := jsTrim options.sessionKey with hkey
    set input := resolvedAppendInput fp text options with hinput
    set event := mkAppendEvent now (loadedState w.bus (rp key)) input with hevent
    have hstlast : (loadedState w₂.bus (rp key)).events.getLast? = some event := by
      rw [hbus₂, hbus₁]
      exact hlast
    have hpe : (fun e => decide (e.sessionKey = key) &&
        decide (jsFiniteFloor (some (JsNum.fin 0)) 0 < e.seq) &&
        (decide (jsToLower (jsTrim ((none : Option String).getD "")) = "") ||
          decide (jsToLower e.source =
            jsToLower (jsTrim ((none : Option String).getD ""))))) event = true := by
      simp only [Bool.and_eq_true, Bool.or_eq_true, decide_eq_true_eq]
      refine ⟨⟨rfl, ?_⟩, Or.inl rfl⟩
      show jsFiniteFloor (some (JsNum.fin 0)) 0 < (loadedState w.bus (rp key)).nextSeq
      have h0 : jsFiniteFloor (some (JsNum.fin 0)) 0 = 0 := rfl
      rw [h0]
      omega
    have hhits : (queryFilter (loadedState w₂.bus (rp key)).events key
        (jsToLower (jsTrim ((none : Option String).getD "")))
        (jsFiniteFloor (some (JsNum.fin 0)) 0)).getLast? = some event :=
      filter_getLast?_of_pos hstlast hpe
    set hits := queryFilter (loadedState w₂.bus (rp key)).events key
      (jsToLower (jsTrim ((none : Option String).getD "")))
      (jsFiniteFloor (some (JsNum.fin 0)) 0) with hhitsdef
    split
    · exact hhits
    · rw [takeLast_getLast? _ (by decide)]
      exact hhits

def witC3World1 : World :=
  ((enqueueSystemEvent (fun _ => 1) (fun _ => "f") (fun t => t) 0 emptyWorld "hello"
    { sessionKey := "s" }).toOption).getD emptyWorld

def witC3Drain : List SystemEvent × World :=
  ((drainSystemEventEntries witC3World1 "s").toOption).getD ([], emptyWorld)

/-- Witness for C3: one enqueue into a fresh store, drained, then
queried. -/
theorem drain_exactly_once_and_cursor_replay_witness :
    (jsTrim ("s" : String) ≠ "" ∧ (witC3World1.queues.map Prod.fst).Nodup ∧
      (∃ w', drainSystemEventEntries witC3World1 "s" =
          Except.ok (((mapGet witC3World1.queues (jsTrim "s")).map
            (fun q => q.queue)).getD [], w') ∧
        w'.bus = witC3World1.bus ∧
        ((mapGet w'.queues (jsTrim "s")).map (fun q => q.queue)).getD [] = [] ∧
        Except.map Prod.fst (drainSystemEventEntries w' "s") = Except.ok [])) ∧
    (mapGet (loadedState emptyWorld.bus ((fun _ => "f")
          (jsTrim ("s" : String)))).byKey
        (resolvedAppendInput (fun t => t) "hello"
          { sessionKey := "s" }).idempotencyKey = none ∧
      1 ≤ (loadedState emptyWorld.bus ((fun _ => "f") (jsTrim ("s" : String)))).nextSeq ∧
      enqueueSystemEvent (fun _ => 1) (fun _ => "f") (fun t => t) 0 emptyWorld "hello"
        { sessionKey := "s" } = Except.ok witC3World1 ∧
      drainSystemEventEntries witC3World1 "s" =
        Except.ok (witC3Drain.1, witC3Drain.2) ∧
      (queryContextEvents (fun _ => "f") witC3Drain.2.bus
          { sessionKey := some "s", afterSeq := some (JsNum.fin 0) }).1.getLast? =
        some (mkAppendEvent 0 (loadedState emptyWorld.bus ((fun _ => "f")
          (jsTrim ("s" : String))))
          (resolvedAppendInput (fun t => t) "hello" { sessionKey := "s" }))) :=
  ⟨⟨by decide, by decide,
    drain_exactly_once_and_cursor_replay.1 witC3World1 "s" (by decide) (by decide)⟩,
   ⟨by decide, by decide, by rfl, by rfl,
    drain_exactly_once_and_cursor_replay.2 (fun _ => 1) (fun _ => "f") (fun t => t) 0
      emptyWorld "hello" { sessionKey := "s" } witC3World1 witC3Drain.1 witC3Drain.2
      (by decide) (by decide) (by decide) (by decide) (by rfl) (by rfl)⟩⟩

end Moltbot
